import Mathlib

/-!
# cnk3x/embed: the packed store and its virtual filesystem

A shallow embedding of the two Go source files of the repository:

* `goEmbed/embed.go` (build time): `gzipCompress`, `chunkBase64Encode`, `encode`
  and the store literal rendered by `goTemplate`;
* `embed.go` (run time): `Fs.Open`, `Fs.ReadBytes`, `Fs.MustReadBytes`, the
  `File` accessors and the `httpFile` methods.

Go values are modelled as follows.

* A `string` is the list of its bytes (`Bytes`).
* A `*File` is an address (`Ptr`) into a heap of `File` values.  The map `Fs`
  gives for each path whether it is a key, and for a key the pointer bound to
  it, which may be nil.
* A Go function returning `(value, error)` with exactly one of the two nil
  returns an `Except`; `Read` and `Seek`, which return a count or a position
  together with an error, return a record of both, the error `none` when nil.
* State is passed explicitly: a method that writes through a `*File` takes the
  heap and returns the heap it leaves.
* A `[]byte` is modelled at two levels.  At the value level a slice is the list
  of its bytes, the nil slice being the empty list; this describes the package
  exactly as long as no caller writes through a slice that shares its backing
  array with another one.  The section on shared backing arrays repeats the
  runtime operations over slice headers and backing arrays; it is the level at
  which what an operation may write is stated.
* The Go standard library is not part of the repository.  The parts the code
  calls (`encoding/base64`, `compress/gzip`, `compress/flate`, `hash/crc32`,
  `bytes.Reader`, `ioutil.ReadAll`) are modelled here from their documented
  behaviour (RFC 4648, RFC 1951, RFC 1952); the gzip *writer* is a parameter.
-/

set_option maxRecDepth 100000

namespace Embed

/-! ## Bytes -/

/-- One Go `byte`. -/
abbrev Byte := Fin 256

/-- The bytes of a Go `string`, or of a `[]byte` at the value level. -/
abbrev Bytes := List Byte

/-- Conversion `byte(n)`: the low eight bits of `n`. -/
def mkByte (n : Nat) : Byte := ⟨n % 256, Nat.mod_lt n (by decide)⟩

/-- The bytes of an ASCII string literal. -/
def ascii (s : String) : Bytes := s.toList.map (fun c => mkByte c.toNat)

/-! ## `encoding/base64`, standard alphabet with padding -/

/-- The table `base64.StdEncoding.encode`:
`ABCDEFGHIJKLMNOPQRSTUVWXYZabcdefghijklmnopqrstuvwxyz0123456789+/`,
indexed by a six-bit value. -/
def encodeStd (n : Nat) : Byte :=
  let n := n % 64
  if n < 26 then mkByte (65 + n)
  else if n < 52 then mkByte (71 + n)
  else if n < 62 then mkByte (n - 4)
  else if n = 62 then mkByte 43
  else mkByte 47

/-- The padding character `=`. -/
def padChar : Byte := mkByte 61

/-- The newline character written by `w.WriteRune('\n')`. -/
def newline : Byte := mkByte 10

/-- `base64.StdEncoding.Encode(v, data)` into a buffer of
`EncodedLen(len(data))` bytes: three source bytes become four characters, a
final group of one or two bytes is padded with `=`. -/
def stdEncode : Bytes → Bytes
  | [] => []
  | [a] =>
    let val := a.val * 65536
    [encodeStd (val / 262144 % 64), encodeStd (val / 4096 % 64), padChar, padChar]
  | [a, b] =>
    let val := a.val * 65536 + b.val * 256
    [encodeStd (val / 262144 % 64), encodeStd (val / 4096 % 64),
      encodeStd (val / 64 % 64), padChar]
  | a :: b :: c :: rest =>
    let val := a.val * 65536 + b.val * 256 + c.val
    encodeStd (val / 262144 % 64) :: encodeStd (val / 4096 % 64) ::
      encodeStd (val / 64 % 64) :: encodeStd (val % 64) :: stdEncode rest

/-! ## `goEmbed/embed.go`: `chunkBase64Encode` -/

/-- The `for` loop of `chunkBase64Encode`.  `r` is the unread part of the
`bytes.Reader` over `v`, `w` the contents of the `strings.Builder`.  Each
iteration reads up to `chunkSize` bytes; `n == 0` leaves the loop, otherwise
the chunk and a newline are written.  The first argument bounds the number of
iterations; `chunkBase64Encode` passes `len(v) + 1`, which the loop never
exhausts because every iteration that continues consumes a byte. -/
def chunkLoop : Nat → Nat → Bytes → Bytes → Bytes
  | 0, _, _, w => w
  | fuel + 1, chunkSize, r, w =>
    let chunk := r.take chunkSize
    if chunk.length = 0 then w
    else chunkLoop fuel chunkSize (r.drop chunkSize) (w ++ chunk ++ [newline])

/-- `chunkBase64Encode(data, chunkSize)`.  `chunkSize` is a Go `int`; a
negative one makes `make([]byte, chunkSize)` panic, so it is a `Nat` here. -/
def chunkBase64Encode (data : Bytes) (chunkSize : Nat) : Bytes :=
  let v := stdEncode data
  if v.length < chunkSize then v
  else chunkLoop (v.length + 1) chunkSize v [newline]

/-! ## Errors -/

deriving instance DecidableEq for Except

/-- Error values of the `io`, `encoding/base64`, `compress/gzip` and
`compress/flate` packages.  The byte offset carried by the two
`CorruptInputError` types is not modelled. -/
inductive StreamErr
  | EOF
  | ErrUnexpectedEOF
  | base64CorruptInput
  | gzipErrHeader
  | gzipErrChecksum
  | flateCorruptInput
  deriving DecidableEq, Repr

/-- Error values the runtime package returns: `os.ErrNotExist`,
`http.ErrNotSupported`, the two errors of `bytes.Reader.Seek`, and the stream
errors above (`io.EOF` is `stream EOF`). -/
inductive Err
  | ErrNotExist
  | ErrNotSupported
  | seekInvalidWhence
  | seekNegativePosition
  | stream (e : StreamErr)
  deriving DecidableEq, Repr

/-- An `io.Reader` over a finite input: the bytes it still delivers and the
error it returns once they are exhausted (`EOF` for a clean end). -/
structure ioReader where
  data : Bytes
  err : StreamErr
  deriving DecidableEq, Repr

/-- The helper `noEOF` of `compress/gzip` and `compress/flate`: `io.EOF` in the
middle of a structure becomes `io.ErrUnexpectedEOF`. -/
def noEOF (e : StreamErr) : StreamErr :=
  if e = StreamErr.EOF then StreamErr.ErrUnexpectedEOF else e

/-! ## `encoding/base64`: the streaming decoder -/

/-- The table `base64.StdEncoding.decodeMap`; `none` stands for `0xff`. -/
def decodeStd (c : Byte) : Option Nat :=
  if 65 ≤ c.val ∧ c.val ≤ 90 then some (c.val - 65)
  else if 97 ≤ c.val ∧ c.val ≤ 122 then some (c.val - 71)
  else if 48 ≤ c.val ∧ c.val ≤ 57 then some (c.val + 4)
  else if c.val = 43 then some 62
  else if c.val = 47 then some 63
  else none

/-- The reader `newlineFilteringReader` that `base64.NewDecoder` wraps around
its input: `\r` and `\n` are dropped. -/
def newlineFilter (s : Bytes) : Bytes :=
  s.filter (fun c => !(c.val = 10 || c.val = 13))

/-- One call `base64.StdEncoding.Decode(dst, src)` on a source of whole
quanta (`decodeQuantum`, non-strict mode): the bytes decoded and the error,
`none` for nil.  The bytes of the quanta before an error are still counted.  A
quantum that ends in padding must be the last of the source; the quantum's
bytes are counted when it is not. -/
def decodeChunk : Bytes → Bytes × Option StreamErr
  | [] => ([], none)
  | c0 :: c1 :: c2 :: c3 :: rest =>
    match decodeStd c0, decodeStd c1 with
    | some s0, some s1 =>
      match decodeStd c2 with
      | some s2 =>
        match decodeStd c3 with
        | some s3 =>
          let val := s0 * 262144 + s1 * 4096 + s2 * 64 + s3
          let r := decodeChunk rest
          (mkByte (val / 65536) :: mkByte (val / 256) :: mkByte val :: r.1, r.2)
        | none =>
          if c3 = padChar then
            let val := s0 * 262144 + s1 * 4096 + s2 * 64
            ([mkByte (val / 65536), mkByte (val / 256)],
              if rest.length = 0 then none else some StreamErr.base64CorruptInput)
          else ([], some StreamErr.base64CorruptInput)
      | none =>
        if c2 = padChar ∧ c3 = padChar then
          let val := s0 * 262144 + s1 * 4096
          ([mkByte (val / 65536)],
            if rest.length = 0 then none else some StreamErr.base64CorruptInput)
        else ([], some StreamErr.base64CorruptInput)
    | _, _ => ([], some StreamErr.base64CorruptInput)
  | _ => ([], some StreamErr.base64CorruptInput)

/-- One `Read(p)` of the `newlineFilteringReader` over the unread text `raw`,
with `len(p) = k`: up to `k` characters are taken and the newlines among them
dropped; a piece that is all newlines is read over.  The result is the
characters delivered and the text left; no characters means `0, io.EOF`.  The
first argument bounds the pieces read over. -/
def filteredRead : Nat → Nat → Bytes → Bytes × Bytes
  | 0, _, raw => ([], raw)
  | fuel + 1, k, raw =>
    if raw.length = 0 then ([], [])
    else if (newlineFilter (raw.take k)).length = 0 then filteredRead fuel k (raw.drop k)
    else (newlineFilter (raw.take k), raw.drop k)

/-- The loop `for d.nbuf < 4 && d.readErr == nil` of `(*decoder).Read`: the
1024-byte buffer `d.buf`, which holds the characters `buf` left over, is filled
from the filtered text until it holds a quantum or the text has ended.  The
caller's buffer is the 4096-byte buffer of the `bufio.Reader` that
`gzip.NewReader` puts around the decoder, or larger, so that each read asks for
as much as `d.buf` has room for. -/
def refill : Nat → Bytes → Bytes → Bytes × Bytes
  | 0, buf, raw => (buf, raw)
  | fuel + 1, buf, raw =>
    if buf.length < 4 ∧ raw.length ≠ 0 then
      refill fuel (buf ++ (filteredRead (raw.length + 1) (1024 - buf.length) raw).1)
        (filteredRead (raw.length + 1) (1024 - buf.length) raw).2
    else (buf, raw)

/-- The successive calls of `(*decoder).Read`: each fills the buffer, decodes
the whole quanta in it with one call of `Decode`, and keeps the characters left
over; fewer than four characters at the end of the text are an unexpected end,
none a clean end.  The result is every byte delivered and the condition that
ends the stream.  The first argument bounds the number of calls. -/
def decoderReads : Nat → Bytes → Bytes → Bytes × StreamErr
  | 0, _, _ => ([], StreamErr.EOF)
  | fuel + 1, buf, raw =>
    let b := (refill (raw.length + 1) buf raw).1
    let rest := (refill (raw.length + 1) buf raw).2
    if b.length < 4 then
      ([], if b.length = 0 then StreamErr.EOF else StreamErr.ErrUnexpectedEOF)
    else
      match decodeChunk (b.take (b.length / 4 * 4)) with
      | (out, some e) => (out, e)
      | (out, none) =>
        (out ++ (decoderReads fuel (b.drop (b.length / 4 * 4)) rest).1,
          (decoderReads fuel (b.drop (b.length / 4 * 4)) rest).2)

/-- The reader `base64.NewDecoder(base64.StdEncoding, bytes.NewBufferString(s))`. -/
def base64NewDecoder (s : Bytes) : ioReader :=
  { data := (decoderReads (s.length + 1) [] s).1, err := (decoderReads (s.length + 1) [] s).2 }

/-! ## `hash/crc32`, IEEE polynomial -/

/-- One bit of the reflected CRC-32 division. -/
def crc32Shift (c : Nat) : Nat :=
  if c % 2 = 1 then Nat.xor (c / 2) 0xEDB88320 else c / 2

/-- One byte of the CRC-32 register update. -/
def crc32Byte (c : Nat) (b : Byte) : Nat :=
  crc32Shift (crc32Shift (crc32Shift (crc32Shift (crc32Shift (crc32Shift
    (crc32Shift (crc32Shift (Nat.xor c b.val))))))))

/-- `crc32.Update(crc, crc32.IEEETable, p)`. -/
def crc32Update (crc : Nat) (p : Bytes) : Nat :=
  Nat.xor (p.foldl crc32Byte (Nat.xor crc 0xFFFFFFFF)) 0xFFFFFFFF

/-! ## `compress/flate`: the decompressor -/

/-- The input side of `flate.decompressor`: the underlying byte reader `r` and
the bit buffer (`f.b`, `f.nb`), least significant bit first. -/
structure BitReader where
  r : ioReader
  b : List Bool
  deriving DecidableEq, Repr

/-- The eight bits of a byte, least significant first. -/
def bitsOfByte (c : Byte) : List Bool :=
  (List.range 8).map (fun i => c.val / 2 ^ i % 2 = 1)

/-- The number held by a list of bits, least significant first. -/
def bitsToNat : List Bool → Nat
  | [] => 0
  | x :: xs => (if x then 1 else 0) + 2 * bitsToNat xs

/-- `f.moreBits()`: one more byte into the bit buffer. -/
def moreBits (f : BitReader) : Except StreamErr BitReader :=
  match f.r.data with
  | [] => Except.error (noEOF f.r.err)
  | c :: rest => Except.ok { r := { data := rest, err := f.r.err }, b := f.b ++ bitsOfByte c }

/-- The loop `for f.nb < n { f.moreBits() }`; the first argument bounds the
iterations and `n + 1` is always enough. -/
def needBits : Nat → Nat → BitReader → Except StreamErr BitReader
  | 0, _, f => Except.ok f
  | fuel + 1, n, f =>
    if f.b.length < n then
      match moreBits f with
      | Except.ok g => needBits fuel n g
      | Except.error e => Except.error e
    else Except.ok f

/-- Reading an `n`-bit field: fill the buffer, take the low `n` bits. -/
def readBits (n : Nat) (f : BitReader) : Except StreamErr (Nat × BitReader) :=
  match needBits (n + 1) n f with
  | Except.ok g => Except.ok (bitsToNat (g.b.take n), { r := g.r, b := g.b.drop n })
  | Except.error e => Except.error e

/-- `io.ReadFull(f.r, buf[0:n])` on the byte reader, the bit buffer set aside. -/
def readFull (n : Nat) (r : ioReader) : Except StreamErr (Bytes × ioReader) :=
  if r.data.length < n then Except.error (noEOF r.err)
  else Except.ok (r.data.take n, { data := r.data.drop n, err := r.err })

/-- A `flate.huffmanDecoder`: the code lengths it was initialised with and the
least number of bits `min` that `huffSym` reads before it looks a code up. -/
structure huffmanDecoder where
  lengths : List Nat
  min : Nat
  deriving DecidableEq, Repr

/-- The smallest nonzero code length, as the first loop of `init` computes it. -/
def minLength (lengths : List Nat) : Nat :=
  lengths.foldl (fun m n => if n = 0 then m else if m = 0 ∨ n < m then n else m) 0

/-- The largest code length. -/
def maxLength (lengths : List Nat) : Nat :=
  lengths.foldl (fun m n => if m < n then n else m) 0

/-- The value of `code` after the loop `for i := min; i <= max; i++` of `init`. -/
def lastCode (lengths : List Nat) : Nat :=
  (List.range' (minLength lengths) (maxLength lengths + 1 - minLength lengths)).foldl
    (fun code i => 2 * code + lengths.count i) 0

/-- `huffmanDecoder.init(lengths)`; `none` when it returns `false`.  An empty
code is accepted; otherwise the code must be complete, or be the degenerate
code with a single one-bit codeword. -/
def huffmanInit (lengths : List Nat) : Option huffmanDecoder :=
  if maxLength lengths = 0 then some { lengths := lengths, min := 0 }
  else if lastCode lengths ≠ 2 ^ maxLength lengths ∧
      ¬ (lastCode lengths = 1 ∧ maxLength lengths = 1) then none
  else some { lengths := lengths, min := minLength lengths }

/-- Table lookup on the bit buffer (missing bits read as zero): the symbol of
the canonical codeword that starts the buffer, and its length.  `len`, `code`
and `first` run through the code lengths as in the canonical assignment. -/
def huffLookup (lengths : List Nat) : Nat → Nat → Nat → Nat → List Bool → Option (Nat × Nat)
  | 0, _, _, _, _ => none
  | fuel + 1, len, code, first, bits =>
    let code := code + (if bits.headD false then 1 else 0)
    let count := lengths.count len
    if code < first + count then
      some (((List.range lengths.length).filter
        (fun s => lengths.getD s 0 = len)).getD (code - first) 0, len)
    else huffLookup lengths fuel (len + 1) (2 * code) (2 * (first + count)) bits.tail

/-- The loop of `f.huffSym(h)`: read until `n` bits are buffered, look the
buffer up, and either consume the codeword found or go on reading when it is
longer than what is buffered.  A lookup that finds nothing has count zero and
is a corrupt input. -/
def huffSymLoop (h : huffmanDecoder) : Nat → Nat → BitReader → Except StreamErr (Nat × BitReader)
  | 0, _, _ => Except.error StreamErr.flateCorruptInput
  | fuel + 1, n, f =>
    match needBits (n + 1) n f with
    | Except.error e => Except.error e
    | Except.ok g =>
      match huffLookup h.lengths 15 1 0 0 g.b with
      | none => Except.error StreamErr.flateCorruptInput
      | some (sym, len) =>
        if len ≤ g.b.length then Except.ok (sym, { r := g.r, b := g.b.drop len })
        else huffSymLoop h fuel len g

/-- `f.huffSym(h)`. -/
def huffSym (h : huffmanDecoder) (f : BitReader) : Except StreamErr (Nat × BitReader) :=
  huffSymLoop h 16 h.min f

/-- The code lengths of `fixedHuffmanDecoder`. -/
def fixedLengths : List Nat :=
  List.replicate 144 8 ++ List.replicate 112 9 ++ List.replicate 24 7 ++ List.replicate 8 8

/-- The decoder `fixedHuffmanDecoder`. -/
def fixedHuffmanDecoder : huffmanDecoder :=
  { lengths := fixedLengths, min := 7 }

/-- The table `codeOrder`. -/
def codeOrder : List Nat :=
  [16, 17, 18, 0, 8, 7, 9, 6, 10, 5, 11, 4, 12, 3, 13, 2, 14, 1, 15]

/-- The first loop of `readHuffman`: `nclen` three-bit code lengths, stored at
the positions `codeOrder` gives. -/
def readCodeLengths : List Nat → List Nat → BitReader → Except StreamErr (List Nat × BitReader)
  | [], codebits, f => Except.ok (codebits, f)
  | i :: order, codebits, f =>
    match readBits 3 f with
    | Except.error e => Except.error e
    | Except.ok (v, g) => readCodeLengths order (codebits.set i v) g

/-- The second loop of `readHuffman`: the `n` code lengths of the two
alphabets, written with the code-length code `h`.  `bits` holds the `i`
lengths read so far. -/
def readLengths (h : huffmanDecoder) (n : Nat) :
    Nat → List Nat → BitReader → Except StreamErr (List Nat × BitReader)
  | 0, _, _ => Except.error StreamErr.flateCorruptInput
  | fuel + 1, bits, f =>
    if bits.length < n then
      match huffSym h f with
      | Except.error e => Except.error e
      | Except.ok (x, g) =>
        if x < 16 then readLengths h n fuel (bits ++ [x]) g
        else if x = 16 ∧ bits.length = 0 then Except.error StreamErr.flateCorruptInput
        else
          let nb := if x = 16 then 2 else if x = 17 then 3 else 7
          let b := if x = 16 then bits.getLastD 0 else 0
          match readBits nb g with
          | Except.error e => Except.error e
          | Except.ok (v, g2) =>
            let rep := (if x = 18 then 11 else 3) + v
            if n < bits.length + rep then Except.error StreamErr.flateCorruptInput
            else readLengths h n fuel (bits ++ List.replicate rep b) g2
    else Except.ok (bits, f)

/-- `f.readHuffman()`: the two decoders of a dynamic block. -/
def readHuffman (f : BitReader) :
    Except StreamErr ((huffmanDecoder × huffmanDecoder) × BitReader) :=
  match needBits 15 14 f with
  | Except.error e => Except.error e
  | Except.ok g =>
    let nlit := bitsToNat (g.b.take 5) + 257
    let ndist := bitsToNat ((g.b.drop 5).take 5) + 1
    let nclen := bitsToNat ((g.b.drop 10).take 4) + 4
    if 286 < nlit then Except.error StreamErr.flateCorruptInput
    else if 30 < ndist then Except.error StreamErr.flateCorruptInput
    else
      match readCodeLengths (codeOrder.take nclen) (List.replicate 19 0)
          { r := g.r, b := g.b.drop 14 } with
      | Except.error e => Except.error e
      | Except.ok (codebits, g2) =>
        match huffmanInit codebits with
        | none => Except.error StreamErr.flateCorruptInput
        | some hc =>
          match readLengths hc (nlit + ndist) (nlit + ndist + 1) [] g2 with
          | Except.error e => Except.error e
          | Except.ok (bits, g3) =>
            match huffmanInit (bits.take nlit), huffmanInit (bits.drop nlit) with
            | some h1, some h2 =>
              let eob := bits.getD 256 0
              Except.ok (({ lengths := h1.lengths, min := if h1.min < eob then eob else h1.min },
                h2), g3)
            | _, _ => Except.error StreamErr.flateCorruptInput

/-- The `switch` of `huffmanBlock` on a length symbol `257 ≤ v`: the base
length and the number of extra bits; `none` for the symbols 286 and 287. -/
def lengthCode (v : Nat) : Option (Nat × Nat) :=
  if v < 265 then some (v - (257 - 3), 0)
  else if v < 269 then some (v * 2 - (265 * 2 - 11), 1)
  else if v < 273 then some (v * 4 - (269 * 4 - 19), 2)
  else if v < 277 then some (v * 8 - (273 * 8 - 35), 3)
  else if v < 281 then some (v * 16 - (277 * 16 - 67), 4)
  else if v < 285 then some (v * 32 - (281 * 32 - 131), 5)
  else if v < 286 then some (258, 0)
  else none

/-- Reading a distance: the symbol (five reversed bits when `hd == nil`), then
the extra bits.  Symbols from 30 on are corrupt. -/
def readDist (hd : Option huffmanDecoder) (f : BitReader) : Except StreamErr (Nat × BitReader) :=
  let sym : Except StreamErr (Nat × BitReader) :=
    match hd with
    | none =>
      match needBits 6 5 f with
      | Except.error e => Except.error e
      | Except.ok g => Except.ok (bitsToNat (g.b.take 5).reverse, { r := g.r, b := g.b.drop 5 })
    | some h => huffSym h f
  match sym with
  | Except.error e => Except.error e
  | Except.ok (dist, g) =>
    if dist < 4 then Except.ok (dist + 1, g)
    else if dist < 30 then
      let nb := (dist - 2) / 2
      match readBits nb g with
      | Except.error e => Except.error e
      | Except.ok (v, g2) => Except.ok (2 ^ (nb + 1) + 1 + (dist % 2) * 2 ^ nb + v, g2)
    else Except.error StreamErr.flateCorruptInput

/-- The copy `copyHistory`: `length` bytes, each taken `dist` back in what has
been written, so that source and destination may overlap. -/
def copyHistory : Nat → Nat → Bytes → Bytes
  | 0, _, out => out
  | length + 1, dist, out =>
    copyHistory length dist (out ++ [out.getD (out.length - dist) 0])

/-- `f.huffmanBlock()`: symbols are decoded until the end-of-block marker.
`out` is what this stream has written; on an error the bytes written so far are
still delivered (`readFlush`).  The first argument bounds the number of symbols;
every symbol consumes a bit. -/
def huffmanBlock (hl : huffmanDecoder) (hd : Option huffmanDecoder) :
    Nat → BitReader → Bytes → Bytes × Except StreamErr BitReader
  | 0, _, out => (out, Except.error StreamErr.flateCorruptInput)
  | fuel + 1, f, out =>
    match huffSym hl f with
    | Except.error e => (out, Except.error e)
    | Except.ok (v, g) =>
      if v < 256 then huffmanBlock hl hd fuel g (out ++ [mkByte v])
      else if v = 256 then (out, Except.ok g)
      else
        match lengthCode v with
        | none => (out, Except.error StreamErr.flateCorruptInput)
        | some (base, n) =>
          match readBits n g with
          | Except.error e => (out, Except.error e)
          | Except.ok (extra, g2) =>
            match readDist hd g2 with
            | Except.error e => (out, Except.error e)
            | Except.ok (dist, g3) =>
              if min out.length 32768 < dist then
                (out, Except.error StreamErr.flateCorruptInput)
              else huffmanBlock hl hd fuel g3 (copyHistory (base + extra) dist out)

/-- `f.dataBlock()`: a stored block.  The bit buffer is discarded, the length
and its complement are checked, and the bytes are copied; a short read still
delivers the bytes it got. -/
def dataBlock (f : BitReader) (out : Bytes) : Bytes × Except StreamErr BitReader :=
  match readFull 4 f.r with
  | Except.error e => (out, Except.error e)
  | Except.ok (hdr, r) =>
    let n := (hdr.getD 0 0).val + (hdr.getD 1 0).val * 256
    let nn := (hdr.getD 2 0).val + (hdr.getD 3 0).val * 256
    if nn ≠ 65535 - n then (out, Except.error StreamErr.flateCorruptInput)
    else if r.data.length < n then (out ++ r.data, Except.error (noEOF r.err))
    else (out ++ r.data.take n, Except.ok { r := { data := r.data.drop n, err := r.err }, b := [] })

/-- The block loop (`nextBlock`, `finishBlock`): blocks are decoded until one
marked final ends.  The result is what the stream wrote and either the reader
left after the final block or the error that stopped it.  The first argument
bounds the number of blocks; every block consumes at least three bits. -/
def inflateBlocks : Nat → BitReader → Bytes → Bytes × Except StreamErr BitReader
  | 0, _, out => (out, Except.error StreamErr.flateCorruptInput)
  | fuel + 1, f, out =>
    match readBits 3 f with
    | Except.error e => (out, Except.error e)
    | Except.ok (hdr, g) =>
      let final := hdr % 2 = 1
      let typ := hdr / 2
      let res : Bytes × Except StreamErr BitReader :=
        if typ = 0 then dataBlock g out
        else if typ = 1 then
          huffmanBlock fixedHuffmanDecoder none (8 * g.r.data.length + g.b.length + 1) g out
        else if typ = 2 then
          match readHuffman g with
          | Except.error e => (out, Except.error e)
          | Except.ok ((h1, h2), g2) =>
            huffmanBlock h1 (some h2) (8 * g2.r.data.length + g2.b.length + 1) g2 out
        else (out, Except.error StreamErr.flateCorruptInput)
      match res with
      | (out2, Except.error e) => (out2, Except.error e)
      | (out2, Except.ok g2) =>
        if final then (out2, Except.ok g2) else inflateBlocks fuel g2 out2

/-- A whole DEFLATE stream read from `r`: the bytes it yields, and either the
reader positioned after the stream or the error that stopped it. -/
def inflate (r : ioReader) : Bytes × Except StreamErr ioReader :=
  match inflateBlocks (8 * r.data.length + 1) { r := r, b := [] } [] with
  | (out, Except.ok g) => (out, Except.ok g.r)
  | (out, Except.error e) => (out, Except.error e)

/-! ## `compress/gzip`: the reader, and `ioutil.ReadAll` -/

/-- The loop of `z.readString()`: bytes up to and including the terminating
NUL; the buffer `z.buf` has room for 512 of them.  A read error is returned as
it is. -/
def readString : Nat → Bytes → ioReader → Except StreamErr (Bytes × ioReader)
  | 0, _, _ => Except.error StreamErr.gzipErrHeader
  | room + 1, acc, r =>
    match r.data with
    | [] => Except.error r.err
    | c :: rest =>
      if c.val = 0 then Except.ok (acc ++ [c], { data := rest, err := r.err })
      else readString room (acc ++ [c]) { data := rest, err := r.err }

/-- An optional NUL-terminated header field (`FNAME`, `FCOMMENT`): the
checksum and the reader after it. -/
def skipString (present : Bool) (digest : Nat) (r : ioReader) : Except StreamErr (Nat × ioReader) :=
  if present then
    match readString 512 [] r with
    | Except.error e => Except.error (noEOF e)
    | Except.ok (s, r2) => Except.ok (crc32Update digest s, r2)
  else Except.ok (digest, r)

/-- `z.readHeader()`: the ten fixed bytes, then the optional fields selected by
the flag byte.  The result is the reader positioned at the DEFLATE stream.  An
input that ends before its first byte gives the reader's own error (`io.EOF`
for a clean end). -/
def readHeader (r : ioReader) : Except StreamErr ioReader :=
  if r.data.length < 10 then
    Except.error (if r.data.length = 0 then r.err else noEOF r.err)
  else
    let buf := r.data.take 10
    let r1 : ioReader := { data := r.data.drop 10, err := r.err }
    if (buf.getD 0 0).val ≠ 0x1f ∨ (buf.getD 1 0).val ≠ 0x8b ∨ (buf.getD 2 0).val ≠ 8 then
      Except.error StreamErr.gzipErrHeader
    else
      let flg := (buf.getD 3 0).val
      let digest := crc32Update 0 buf
      let extra : Except StreamErr (Nat × ioReader) :=
        if flg / 4 % 2 = 1 then
          match readFull 2 r1 with
          | Except.error e => Except.error e
          | Except.ok (len, r2) =>
            match readFull ((len.getD 0 0).val + (len.getD 1 0).val * 256) r2 with
            | Except.error e => Except.error e
            | Except.ok (data, r3) => Except.ok (crc32Update (crc32Update digest len) data, r3)
        else Except.ok (digest, r1)
      match extra with
      | Except.error e => Except.error e
      | Except.ok (digest, r2) =>
        match skipString (flg / 8 % 2 = 1) digest r2 with
        | Except.error e => Except.error e
        | Except.ok (digest, r3) =>
          match skipString (flg / 16 % 2 = 1) digest r3 with
          | Except.error e => Except.error e
          | Except.ok (digest, r4) =>
            if flg / 2 % 2 = 1 then
              match readFull 2 r4 with
              | Except.error e => Except.error e
              | Except.ok (crc, r5) =>
                if (crc.getD 0 0).val + (crc.getD 1 0).val * 256 ≠ digest % 65536 then
                  Except.error StreamErr.gzipErrHeader
                else Except.ok r5
            else Except.ok r4

/-- A `*gzip.Reader` whose first header has been read: the input positioned at
the first DEFLATE stream. -/
structure gzipReader where
  r : ioReader
  deriving DecidableEq, Repr

/-- `gzip.NewReader(r)`. -/
def gzipNewReader (r : ioReader) : Except StreamErr gzipReader :=
  match readHeader r with
  | Except.ok r1 => Except.ok { r := r1 }
  | Except.error e => Except.error e

/-- A little-endian number. -/
def leNat : Bytes → Nat
  | [] => 0
  | b :: bs => b.val + 256 * leNat bs

/-- Reading a `gzip.Reader` (in its default multistream mode) to the end: each
member is inflated, its trailer (CRC-32 and size) checked, and the next header
read; a clean end of input before a next header ends the data.  `acc` is what
earlier members yielded.  The result is every byte read before the end or the
error, and the error (`none` for the end of the data).  The first argument
bounds the number of members. -/
def readMembers : Nat → ioReader → Bytes → Bytes × Option StreamErr
  | 0, _, acc => (acc, some StreamErr.gzipErrHeader)
  | fuel + 1, r, acc =>
    match inflate r with
    | (out, Except.error e) => (acc ++ out, some e)
    | (out, Except.ok r2) =>
      match readFull 8 r2 with
      | Except.error e => (acc ++ out, some e)
      | Except.ok (t, r3) =>
        if leNat (t.take 4) ≠ crc32Update 0 out ∨ leNat (t.drop 4) ≠ out.length % 4294967296 then
          (acc ++ out, some StreamErr.gzipErrChecksum)
        else
          match readHeader r3 with
          | Except.error e =>
            if e = StreamErr.EOF then (acc ++ out, none) else (acc ++ out, some e)
          | Except.ok r4 => readMembers fuel r4 (acc ++ out)

/-- `ioutil.ReadAll(gzr)`: the data read until an error or the end, and the
error (`none` for the end). -/
def ReadAll (gzr : gzipReader) : Bytes × Option StreamErr :=
  readMembers (gzr.r.data.length + 1) gzr.r []

/-! ## `bytes.Reader` -/

/-- A `*bytes.Reader`: the slice `s` and the read position `i` (an `int64`). -/
structure bytesReader where
  s : Bytes
  i : Int
  deriving DecidableEq, Repr

/-- `bytes.NewReader(b)`. -/
def bytesNewReader (b : Bytes) : bytesReader := { s := b, i := 0 }

/-- The outcome of a `Read(p)`: the buffer `p` afterwards, the reader
afterwards, and the two results `n` and `err`. -/
structure ReadResult where
  p : Bytes
  reader : Option bytesReader
  n : Int
  err : Option Err
  deriving DecidableEq, Repr

/-- `(*bytes.Reader).Read(b)`: at or past the end it returns `0, io.EOF`;
otherwise `copy(b, r.s[r.i:])` and the position advances by the count. -/
def bytesReader.Read (r : bytesReader) (p : Bytes) : ReadResult :=
  if (r.s.length : Int) ≤ r.i then
    { p := p, reader := some r, n := 0, err := some (Err.stream StreamErr.EOF) }
  else
    let src := r.s.drop r.i.toNat
    let n := min p.length src.length
    { p := src.take n ++ p.drop n, reader := some { s := r.s, i := r.i + n }, n := n, err := none }

/-- Wrap-around of `int64` arithmetic. -/
def wrap64 (x : Int) : Int := (x + 9223372036854775808) % 18446744073709551616 - 9223372036854775808

/-- The outcome of a `Seek`: the reader afterwards and the two results. -/
structure SeekResult where
  reader : Option bytesReader
  pos : Int
  err : Option Err
  deriving DecidableEq, Repr

/-- `(*bytes.Reader).Seek(offset, whence)`. -/
def bytesReader.Seek (r : bytesReader) (offset : Int) (whence : Int) : SeekResult :=
  if whence = 0 ∨ whence = 1 ∨ whence = 2 then
    let abs : Int :=
      if whence = 0 then offset
      else if whence = 1 then wrap64 (r.i + offset)
      else wrap64 (r.s.length + offset)
    if abs < 0 then { reader := some r, pos := 0, err := some Err.seekNegativePosition }
    else { reader := some { s := r.s, i := abs }, pos := abs, err := none }
  else { reader := some r, pos := 0, err := some Err.seekInvalidWhence }

/-! ## `embed.go`: `File` and its `os.FileInfo` methods -/

/-- The struct `File` of the runtime package, its buffer `data` at the value
level. -/
structure File where
  FilePath : String
  FileName : String
  FileSize : Int
  FileModTime : Int
  Data : Bytes
  FileIsDir : Bool
  data : Bytes
  deriving DecidableEq, Repr

/-- A `time.Time` as `time.Unix(sec, nsec)` builds it. -/
structure Time where
  sec : Int
  nsec : Int
  deriving DecidableEq, Repr

/-- `time.Unix(sec, nsec)`. -/
def timeUnix (sec nsec : Int) : Time := { sec := sec, nsec := nsec }

/-- `(*File).Name()`. -/
def File.Name (f : File) : String := f.FileName

/-- `(*File).Size()`. -/
def File.Size (f : File) : Int := f.FileSize

/-- `(*File).Mode()`: the constant `0444`. -/
def File.Mode (_f : File) : Nat := 0o444

/-- `(*File).ModTime()`. -/
def File.ModTime (f : File) : Time := timeUnix f.FileModTime 0

/-- `(*File).IsDir()`. -/
def File.IsDir (f : File) : Bool := f.FileIsDir

/-- `(*File).Sys()`: always `nil`. -/
def File.Sys (_f : File) : Option Unit := none

/-! ## `embed.go`: `Fs` -/

/-- The address of a `File`. -/
abbrev Ptr := Nat

/-- The `File` values the pointers of a store refer to. -/
abbrev Heap := Ptr → File

/-- The type `Fs`, a `map[string]*File`: `none` for a path that is no key,
`some none` for a key bound to the nil pointer, `some (some p)` for a key bound
to the record at `p`.  No method writes to the map, so it is passed to the
methods and never returned. -/
abbrev Fs := String → Option (Option Ptr)

/-- The index expression `fs[name]`: the pointer bound to the key, and nil for
a path that is no key. -/
def Fs.index (fs : Fs) (name : String) : Option Ptr :=
  match fs name with
  | some (some stat) => some stat
  | _ => none

/-- The assignment `stat.data = d` through the pointer `stat`. -/
def setData (h : Heap) (stat : Ptr) (d : Bytes) : Heap :=
  fun q => if q = stat then { h stat with data := d } else h q

/-- The condition `stat.FileSize > 0 && len(stat.data) == 0` under which
`ReadBytes` decodes the payload. -/
def needsDecode (f : File) : Prop := 0 < f.FileSize ∧ f.data.length = 0

instance (f : File) : Decidable (needsDecode f) := by
  unfold needsDecode; infer_instance

/-- `Fs.ReadBytes(name)`: the result `(*File, error)`, of which exactly one is
nil, and the heap afterwards.  `ioutil.ReadAll` assigns `stat.data` whatever
it read, also when it returns an error. -/
def Fs.ReadBytes (fs : Fs) (h : Heap) (name : String) : Except Err Ptr × Heap :=
  match Fs.index fs name with
  | none => (Except.error Err.ErrNotExist, h)
  | some stat =>
    if needsDecode (h stat) then
      match gzipNewReader (base64NewDecoder (h stat).Data) with
      | Except.ok gzr =>
        let res := ReadAll gzr
        let h1 := setData h stat res.1
        match res.2 with
        | none => (Except.ok stat, h1)
        | some err =>
          if err = StreamErr.ErrUnexpectedEOF then (Except.ok stat, h1)
          else (Except.error (Err.stream err), h1)
      | Except.error err =>
        if err = StreamErr.ErrUnexpectedEOF then (Except.ok stat, h)
        else (Except.error (Err.stream err), h)
    else (Except.ok stat, h)

/-- The struct `httpFile`: the pointer `stat` and the interface value
`reader`, `none` when it is `nil`. -/
structure httpFile where
  stat : Ptr
  reader : Option bytesReader
  deriving DecidableEq, Repr

/-- `Fs.Open(name)`. -/
def Fs.Open (fs : Fs) (h : Heap) (name : String) : Except Err httpFile × Heap :=
  match Fs.ReadBytes fs h name with
  | (Except.ok stat, h1) =>
    (Except.ok { reader := some (bytesNewReader (h1 stat).data), stat := stat }, h1)
  | (Except.error err, h1) => (Except.error err, h1)

/-- `Fs.MustReadBytes(name)`: the bytes of the slice it returns, none for the
nil slice. -/
def Fs.MustReadBytes (fs : Fs) (h : Heap) (name : String) : Bytes × Heap :=
  match Fs.ReadBytes fs h name with
  | (Except.ok stat, h1) => ((h1 stat).data, h1)
  | (Except.error _, h1) => ([], h1)

/-! ## `embed.go`: the methods of `httpFile` -/

/-- `(*httpFile).Close()`: `hf.stat.data = hf.stat.data[:0]`, and a nil error. -/
def httpFile.Close (hf : httpFile) (h : Heap) : Option Err × Heap :=
  (none, setData h hf.stat [])

/-- `(*httpFile).Read(p)`. -/
def httpFile.Read (hf : httpFile) (p : Bytes) : ReadResult :=
  match hf.reader with
  | some r => r.Read p
  | none => { p := p, reader := none, n := -1, err := some (Err.stream StreamErr.EOF) }

/-- `(*httpFile).Seek(offset, whence)`. -/
def httpFile.Seek (hf : httpFile) (offset : Int) (whence : Int) : SeekResult :=
  match hf.reader with
  | some r => r.Seek offset whence
  | none => { reader := none, pos := -1, err := some (Err.stream StreamErr.EOF) }

/-- `(*httpFile).Readdir(n)`: `nil, http.ErrNotSupported`. -/
def httpFile.Readdir (_hf : httpFile) (_n : Int) : Option (List Ptr) × Option Err :=
  (none, some Err.ErrNotSupported)

/-- `(*httpFile).Stat()`: the pointer `hf.stat` as an `os.FileInfo`, and a nil
error. -/
def httpFile.Stat (hf : httpFile) : Option Ptr × Option Err :=
  (some hf.stat, none)

/-- The handle after a `Read` or a `Seek` moved its reader. -/
def httpFile.withReader (hf : httpFile) (r : Option bytesReader) : httpFile :=
  { stat := hf.stat, reader := r }

/-! ## Auxiliary notions -/

/-- Two `File` values that agree on every field but the buffer `data`. -/
def sameRecord (f g : File) : Prop :=
  f.FilePath = g.FilePath ∧ f.FileName = g.FileName ∧ f.FileSize = g.FileSize ∧
    f.FileModTime = g.FileModTime ∧ f.FileIsDir = g.FileIsDir ∧ f.Data = g.Data

/-- `gzip.NewReader(r)` followed, when it succeeds, by `ioutil.ReadAll`: the
bytes read and the error, of either call, that ended the reading. -/
def readGzip (r : ioReader) : Bytes × Option StreamErr :=
  match gzipNewReader r with
  | Except.ok gzr => ReadAll gzr
  | Except.error err => ([], some err)

/-- What lines 34 to 38 of `embed.go` leave in `(stat.data, err)` when they
start from an empty buffer: the bytes read and the error of `ReadAll`, or no
bytes and the error of `gzip.NewReader`. -/
def decodePayload (s : Bytes) : Bytes × Option StreamErr :=
  readGzip (base64NewDecoder s)

/-! ## `goEmbed/embed.go`: the encoder and the rendered store -/

/-- The part of `*gzip.Writer` that `gzipCompress` uses, as a parameter: the
bytes each call appends to the underlying `bytes.Buffer`, for a writer made by
`gzip.NewWriterLevel(w, gzip.BestCompression)`.  `Write data` is what
`gzw.Write(data)` appends, `Flush data` what the following `gzw.Flush()`
appends, `Close data` what the deferred `gzw.Close()` appends after that. -/
structure gzipWriter where
  Write : Bytes → Bytes
  Flush : Bytes → Bytes
  Close : Bytes → Bytes

/-- `gzipCompress(data)`.  A `bytes.Buffer` never fails a write and the level
is valid, so the error is nil.  The result `w.Bytes()` is evaluated by the
`return` statement, before the deferred `doClose(gzw)` runs: what `Close`
appends is not part of it. -/
def gzipCompress (gz : gzipWriter) (data : Bytes) : Bytes × Option StreamErr :=
  let w : Bytes := []
  let w := w ++ gz.Write data
  let w := w ++ gz.Flush data
  (w, none)

/-- `encode(fn)` for a file whose contents `ioutil.ReadFile` returned as
`data`. -/
def encode (gz : gzipWriter) (data : Bytes) : Bytes × Option StreamErr :=
  match gzipCompress gz data with
  | (z, none) => (chunkBase64Encode z 64, none)
  | (_, some err) => ([], some err)

/-- The struct `File` of the generator. -/
structure GenFile where
  FilePath : String
  FileName : String
  FileSize : Int
  FileModTime : Int
  Data : Bytes
  FileIsDir : Bool
  deriving DecidableEq, Repr

/-- The `File` literal that `goTemplate` renders for one entry: `FileName` and
`FileModTime`, then `FileIsDir: true` for a directory, `FileSize` and `Data`
otherwise.  The fields the literal leaves out have their zero value; `data` is
unexported and cannot be set from the generated package. -/
def renderFile (g : GenFile) : File :=
  if g.FileIsDir then
    { FilePath := "", FileName := g.FileName, FileSize := 0, FileModTime := g.FileModTime,
      Data := [], FileIsDir := true, data := [] }
  else
    { FilePath := "", FileName := g.FileName, FileSize := g.FileSize,
      FileModTime := g.FileModTime, Data := g.Data, FileIsDir := false, data := [] }

/-- The zero value of `File`. -/
def zeroFile : File :=
  { FilePath := "", FileName := "", FileSize := 0, FileModTime := 0, Data := [],
    FileIsDir := false, data := [] }

/-- The store that the generated map literal builds at program start: the
entry at position `i` of the list is allocated at address `i` and bound to its
`FilePath`. -/
def loadStore (files : List GenFile) : Fs × Heap :=
  (fun name => (files.findIdx? (fun g => g.FilePath = name)).map some,
   fun p => ((files.get? p).map renderFile).getD zeroFile)

/-! ## Example stores -/

/-- The base64 text of a gzip stream of `hello` as a writer leaves it after
`Write` and `Flush`: the header, one fixed-Huffman block and the empty stored
block of the sync point, with no final block and no trailer. -/
def helloPayload : Bytes := ascii "H4sIAAAAAAAC/8pIzcnJBwAAAP//"

/-- The payload of an empty file: the text of the gzip header followed by the
empty stored block of `Flush`. -/
def emptyPayload : Bytes := ascii "H4sIAAAAAAAC/wAAAP//"

/-- The entries `GetFiles` collects, in the order of the walk, from a directory
`assets` that holds `a.txt` with the content `hello`, the directory `dir`, and
the empty file `dir/b.txt`. -/
def sampleFiles : List GenFile :=
  [ { FilePath := "/", FileName := "assets", FileSize := 0, FileModTime := 1600000003,
      Data := [], FileIsDir := true },
    { FilePath := "/a.txt", FileName := "a.txt", FileSize := 5, FileModTime := 1600000000,
      Data := helloPayload, FileIsDir := false },
    { FilePath := "/dir", FileName := "dir", FileSize := 0, FileModTime := 1600000001,
      Data := [], FileIsDir := true },
    { FilePath := "/dir/b.txt", FileName := "b.txt", FileSize := 0, FileModTime := 1600000002,
      Data := emptyPayload, FileIsDir := false } ]

/-- The store loaded from `sampleFiles`. -/
def sampleStore : Fs × Heap := loadStore sampleFiles

/-- The handle `Open` returns for `/a.txt` in `sampleStore`. -/
def helloHandle : httpFile := { stat := 1, reader := some (bytesNewReader (ascii "hello")) }

/-! ## The runtime package over shared backing arrays

The operations of `embed.go` once more, with a `[]byte` as a slice header that
points into a backing array.  Two slices over one array show the same bytes:
the slice `MustReadBytes` returns is `stat.data` itself, a `bytes.Reader` reads
the array its slice points into, and `Read(p)` writes the array `p` points
into. -/

namespace Shared

/-- A slice header: the backing array, the offset in it of the slice's first
element, and the length.  The capacity is left out, since the package never
appends to a slice or extends one. -/
structure Slice where
  array : Nat
  off : Nat
  len : Nat
  deriving DecidableEq, Repr

/-- `len(s)`; `none` is the nil slice. -/
def len (s : Option Slice) : Nat :=
  match s with
  | none => 0
  | some s => s.len

/-- The bytes a slice shows, given the contents of the backing arrays. -/
def contents (arrays : Nat → Bytes) (s : Option Slice) : Bytes :=
  match s with
  | none => []
  | some s => ((arrays s.array).drop s.off).take s.len

/-- The struct `File`, its field `data` a slice header. -/
structure File where
  FilePath : String
  FileName : String
  FileSize : Int
  FileModTime : Int
  Data : Bytes
  FileIsDir : Bool
  data : Option Slice
  deriving DecidableEq, Repr

/-- The memory of the program: the `File` values by address, the contents of
the backing arrays by address, and the address the next array allocated
gets. -/
structure State where
  files : Ptr → File
  arrays : Nat → Bytes
  next : Nat

/-- The assignment `stat.data = d` where `d` is the slice that `ioutil.ReadAll`
returns: a newly allocated array that holds the bytes read. -/
def State.assignFresh (w : State) (stat : Ptr) (d : Bytes) : State :=
  { files := fun q =>
      if q = stat then
        { w.files stat with data := some { array := w.next, off := 0, len := d.length } }
      else w.files q
    arrays := fun a => if a = w.next then d else w.arrays a
    next := w.next + 1 }

/-- `Fs.ReadBytes(name)`. -/
def Fs.ReadBytes (fs : Fs) (w : State) (name : String) : Except Err Ptr × State :=
  match Fs.index fs name with
  | none => (Except.error Err.ErrNotExist, w)
  | some stat =>
    if 0 < (w.files stat).FileSize ∧ len (w.files stat).data = 0 then
      match gzipNewReader (base64NewDecoder (w.files stat).Data) with
      | Except.ok gzr =>
        let res := ReadAll gzr
        let w1 := w.assignFresh stat res.1
        match res.2 with
        | none => (Except.ok stat, w1)
        | some err =>
          if err = StreamErr.ErrUnexpectedEOF then (Except.ok stat, w1)
          else (Except.error (Err.stream err), w1)
      | Except.error err =>
        if err = StreamErr.ErrUnexpectedEOF then (Except.ok stat, w)
        else (Except.error (Err.stream err), w)
    else (Except.ok stat, w)

/-- A `*bytes.Reader`: the slice `s` and the read position `i`. -/
structure bytesReader where
  s : Option Slice
  i : Int
  deriving DecidableEq, Repr

/-- The struct `httpFile`. -/
structure httpFile where
  stat : Ptr
  reader : Option bytesReader
  deriving DecidableEq, Repr

/-- `Fs.Open(name)`: the reader is made over the slice `stat.data`. -/
def Fs.Open (fs : Fs) (w : State) (name : String) : Except Err httpFile × State :=
  match Fs.ReadBytes fs w name with
  | (Except.ok stat, w1) =>
    (Except.ok { reader := some { s := (w1.files stat).data, i := 0 }, stat := stat }, w1)
  | (Except.error err, w1) => (Except.error err, w1)

/-- `Fs.MustReadBytes(name)`: the slice `stat.data` itself, or nil. -/
def Fs.MustReadBytes (fs : Fs) (w : State) (name : String) : Option Slice × State :=
  match Fs.ReadBytes fs w name with
  | (Except.ok stat, w1) => ((w1.files stat).data, w1)
  | (Except.error _, w1) => (none, w1)

/-- `(*httpFile).Close()`: `hf.stat.data = hf.stat.data[:0]`, the same array
with length 0. -/
def httpFile.Close (hf : httpFile) (w : State) : Option Err × State :=
  (none,
   { files := fun q =>
       if q = hf.stat then
         { w.files hf.stat with
           data := (w.files hf.stat).data.map
             (fun s => { array := s.array, off := s.off, len := 0 }) }
       else w.files q
     arrays := w.arrays
     next := w.next })

/-- The array `a` after `src` has been written into it from offset `off` on;
what would fall behind the end of the array is not written. -/
def writeAt : Bytes → Nat → Bytes → Bytes
  | [], _, _ => []
  | x :: a, 0, [] => x :: a
  | _ :: a, 0, y :: src => y :: writeAt a 0 src
  | x :: a, off + 1, src => x :: writeAt a off src

/-- The results `n` and `err` of a `Read`, and the reader it leaves. -/
structure ReadResult where
  reader : Option bytesReader
  n : Int
  err : Option Err
  deriving DecidableEq, Repr

/-- `(*bytes.Reader).Read(b)`: at or past the end `0, io.EOF`; otherwise
`copy(b, r.s[r.i:])`, which reads the bytes that the reader's slice shows and
writes them into the array that `b` points into, and the position advances. -/
def bytesReader.Read (r : bytesReader) (w : State) (p : Option Slice) : ReadResult × State :=
  if (len r.s : Int) ≤ r.i then
    ({ reader := some r, n := 0, err := some (Err.stream StreamErr.EOF) }, w)
  else
    let src := (contents w.arrays r.s).drop r.i.toNat
    let n := min (len p) src.length
    ({ reader := some { s := r.s, i := r.i + n }, n := n, err := none },
     match p with
     | none => w
     | some b =>
       { files := w.files
         arrays := fun a =>
           if a = b.array then writeAt (w.arrays a) b.off (src.take n) else w.arrays a
         next := w.next })

/-- `(*httpFile).Read(p)`. -/
def httpFile.Read (hf : httpFile) (w : State) (p : Option Slice) : ReadResult × State :=
  match hf.reader with
  | some r => r.Read w p
  | none => ({ reader := none, n := -1, err := some (Err.stream StreamErr.EOF) }, w)

/-- The results of a `Seek`, and the reader it leaves. -/
structure SeekResult where
  reader : Option bytesReader
  pos : Int
  err : Option Err
  deriving DecidableEq, Repr

/-- `(*httpFile).Seek(offset, whence)`, with `(*bytes.Reader).Seek`: it reads
and writes the reader only. -/
def httpFile.Seek (hf : httpFile) (offset : Int) (whence : Int) : SeekResult :=
  match hf.reader with
  | some r =>
    if whence = 0 ∨ whence = 1 ∨ whence = 2 then
      let abs : Int :=
        if whence = 0 then offset
        else if whence = 1 then wrap64 (r.i + offset)
        else wrap64 (len r.s + offset)
      if abs < 0 then { reader := some r, pos := 0, err := some Err.seekNegativePosition }
      else { reader := some { s := r.s, i := abs }, pos := abs, err := none }
    else { reader := some r, pos := 0, err := some Err.seekInvalidWhence }
  | none => { reader := none, pos := -1, err := some (Err.stream StreamErr.EOF) }

/-- `(*httpFile).Readdir(n)`. -/
def httpFile.Readdir (_hf : httpFile) (_n : Int) : Option (List Ptr) × Option Err :=
  (none, some Err.ErrNotSupported)

/-- `(*httpFile).Stat()`. -/
def httpFile.Stat (hf : httpFile) : Option Ptr × Option Err :=
  (some hf.stat, none)

/-- A call of one of the runtime operations. -/
inductive Op
  | Open (name : String)
  | ReadBytes (name : String)
  | MustReadBytes (name : String)
  | Read (hf : httpFile) (p : Option Slice)
  | Seek (hf : httpFile) (offset whence : Int)
  | Stat (hf : httpFile)
  | Readdir (hf : httpFile) (n : Int)
  | Close (hf : httpFile)

/-- The state a call leaves.  `Seek`, `Stat` and `Readdir` are given the handle
only and have no access to the state. -/
def Op.run (fs : Fs) (w : State) : Op → State
  | Op.Open name => (Fs.Open fs w name).2
  | Op.ReadBytes name => (Fs.ReadBytes fs w name).2
  | Op.MustReadBytes name => (Fs.MustReadBytes fs w name).2
  | Op.Read hf p => (hf.Read w p).2
  | Op.Close hf => (hf.Close w).2
  | Op.Seek _ _ _ => w
  | Op.Stat _ => w
  | Op.Readdir _ _ => w

/-- The record a call accesses: the one bound to the path, or the one behind
the handle. -/
def Op.accessed (fs : Fs) : Op → Option Ptr
  | Op.Open name => Fs.index fs name
  | Op.ReadBytes name => Fs.index fs name
  | Op.MustReadBytes name => Fs.index fs name
  | Op.Read hf _ => some hf.stat
  | Op.Close hf => some hf.stat
  | Op.Seek hf _ _ => some hf.stat
  | Op.Stat hf => some hf.stat
  | Op.Readdir hf _ => some hf.stat

/-- The buffer a call is given to write into: the argument `p` of `Read`. -/
def Op.buffer : Op → Option Slice
  | Op.Read _ p => p
  | _ => none

/-- Two `File` values that agree on every field but the buffer `data`. -/
def sameRecord (f g : File) : Prop :=
  f.FilePath = g.FilePath ∧ f.FileName = g.FileName ∧ f.FileSize = g.FileSize ∧
    f.FileModTime = g.FileModTime ∧ f.FileIsDir = g.FileIsDir ∧ f.Data = g.Data

/-- The `File` literal that `goTemplate` renders for one entry, its `data`
nil. -/
def renderFile (g : GenFile) : File :=
  if g.FileIsDir then
    { FilePath := "", FileName := g.FileName, FileSize := 0, FileModTime := g.FileModTime,
      Data := [], FileIsDir := true, data := none }
  else
    { FilePath := "", FileName := g.FileName, FileSize := g.FileSize,
      FileModTime := g.FileModTime, Data := g.Data, FileIsDir := false, data := none }

/-- The state at program start: the records of the generated map literal, and
no backing array. -/
def loadState (files : List GenFile) : State :=
  { files := fun p =>
      ((files.get? p).map renderFile).getD
        { FilePath := "", FileName := "", FileSize := 0, FileModTime := 0, Data := [],
          FileIsDir := false, data := none }
    arrays := fun _ => []
    next := 0 }

end Shared

/-- The handle `Open` returns for `/dir` in `sampleStore`. -/
def dirHandle : httpFile := { stat := 2, reader := some (bytesNewReader []) }

/-- A store whose one record carries a payload that is no gzip stream: the
base64 text of `hello world!`. -/
def notGzipStore : Fs × Heap :=
  loadStore [
    { FilePath := "/x", FileName := "x", FileSize := 12, FileModTime := 1600000000,
      Data := ascii "aGVsbG8gd29ybGQh", FileIsDir := false }]

/-- A store whose one record carries a payload cut off after five bytes of the
gzip header. -/
def truncatedStore : Fs × Heap :=
  loadStore [
    { FilePath := "/t", FileName := "t", FileSize := 5, FileModTime := 1600000000,
      Data := ascii "H4sIAAA=", FileIsDir := false }]

/-- The handle `Open` returns for `/t` in `truncatedStore`. -/
def truncatedHandle : httpFile := { stat := 0, reader := some (bytesNewReader []) }

/-- A store whose one record carries a complete gzip stream of `hello` in
which one bit of the CRC-32 trailer is flipped. -/
def badChecksumStore : Fs × Heap :=
  loadStore [
    { FilePath := "/f", FileName := "f", FileSize := 5, FileModTime := 1600000000,
      Data := ascii "H4sIAAAAAAAC/8tIzcnJBwCHphA2BQAAAA==", FileIsDir := false }]

/-- A store with a directory record that declares the size 1 and has no
payload. -/
def sizedDirStore : Fs × Heap :=
  (fun name => if name = "/d" then some (some 0) else none,
   fun _ => { FilePath := "", FileName := "d", FileSize := 1, FileModTime := 1600000000,
              Data := [], FileIsDir := true, data := [] })

/-- The handle the second `Open("/f")` returns in `badChecksumStore`. -/
def staleHandle : httpFile := { stat := 0, reader := some (bytesNewReader (ascii "hello")) }

/-- The heap of `badChecksumStore` after a first `Open("/f")`. -/
def badChecksumHeap1 : Heap := (Fs.Open badChecksumStore.1 badChecksumStore.2 "/f").2

/-- The heap after a second `Open("/f")` and a `Close` of its handle. -/
def badChecksumHeap2 : Heap :=
  (staleHandle.Close (Fs.Open badChecksumStore.1 badChecksumHeap1 "/f").2).2

/-- The pieces that the loop of `chunkBase64Encode` writes one after the other:
what `chunkLoop` reads, without the newlines. -/
def chunkLines : Nat → Nat → Bytes → List Bytes
  | 0, _, _ => []
  | fuel + 1, chunkSize, r =>
    if (r.take chunkSize).length = 0 then []
    else r.take chunkSize :: chunkLines fuel chunkSize (r.drop chunkSize)

/-- The payload of a file that holds `world`, in the form of `helloPayload`. -/
def worldPayload : Bytes := ascii "H4sIAAAAAAAC/yrPL8pJAQAAAP//"

/-- Two regular files, `/a.txt` with the content `hello` and `/b.txt` with the
content `world`. -/
def twoFiles : List GenFile :=
  [ { FilePath := "/a.txt", FileName := "a.txt", FileSize := 5, FileModTime := 1600000000,
      Data := helloPayload, FileIsDir := false },
    { FilePath := "/b.txt", FileName := "b.txt", FileSize := 5, FileModTime := 1600000001,
      Data := worldPayload, FileIsDir := false } ]

/-- The map of the store loaded from `twoFiles`. -/
def twoFilesFs : Fs := (loadStore twoFiles).1

/-- The state after `p := fs.MustReadBytes("/a.txt")` at program start. -/
def stateAfterMustRead : Shared.State :=
  (Shared.Fs.MustReadBytes twoFilesFs (Shared.loadState twoFiles) "/a.txt").2

/-- The slice `p` that this `MustReadBytes("/a.txt")` returns: the buffer of
the record of `/a.txt`. -/
def bufferOfA : Shared.Slice := { array := 0, off := 0, len := 5 }

/-- The state after the following `hb, _ := fs.Open("/b.txt")`. -/
def stateAfterOpen : Shared.State :=
  (Shared.Fs.Open twoFilesFs stateAfterMustRead "/b.txt").2

/-- The handle `hb` that this `Open("/b.txt")` returns. -/
def handleOfB : Shared.httpFile :=
  { stat := 1, reader := some { s := some { array := 1, off := 0, len := 5 }, i := 0 } }

/-- The state after the following `hb.Read(p)`. -/
def stateAfterRead : Shared.State :=
  (handleOfB.Read stateAfterOpen (some bufferOfA)).2

/-! ## Lemmas on `ReadBytes` and `Open` -/

theorem Fs.index_some (fs : Fs) (name : String) (stat : Ptr)
    (h : Fs.index fs name = some stat) : fs name = some (some stat) := by
  unfold Fs.index at h
  split at h
  · next q hq => cases h; exact hq
  · cases h

theorem Fs.index_bound (fs : Fs) (name : String) (stat : Ptr)
    (h : fs name = some (some stat)) : Fs.index fs name = some stat := by
  unfold Fs.index
  rw [h]

theorem Fs.index_none (fs : Fs) (name : String) :
    Fs.index fs name = none ↔ fs name = none ∨ fs name = some none := by
  unfold Fs.index
  cases hfs : fs name with
  | none => simp
  | some o => cases o <;> simp

theorem setData_same (h : Heap) (stat : Ptr) : setData h stat (h stat).data = h := by
  funext q
  unfold setData
  split
  · next hq => subst hq; rfl
  · rfl

theorem setData_at (h : Heap) (stat : Ptr) (d : Bytes) :
    (setData h stat d stat).data = d := by
  simp [setData]

theorem setData_sameRecord (h : Heap) (stat : Ptr) (d : Bytes) (q : Ptr) :
    sameRecord (setData h stat d q) (h q) := by
  unfold setData sameRecord
  split
  · next hq => subst hq; simp
  · simp

theorem setData_other (h : Heap) (stat : Ptr) (d : Bytes) (q : Ptr) (hq : q ≠ stat) :
    setData h stat d q = h q := by
  simp [setData, hq]

theorem setData_setData (h : Heap) (stat : Ptr) (d e : Bytes) :
    setData (setData h stat d) stat e = setData h stat e := by
  funext q
  by_cases hq : q = stat
  · subst hq; simp [setData]
  · simp [setData, hq]

/-- The result of `ReadBytes` on a path that is present, in terms of
`decodePayload`. -/
theorem ReadBytes_present (fs : Fs) (h : Heap) (name : String) (stat : Ptr)
    (hfs : Fs.index fs name = some stat) :
    Fs.ReadBytes fs h name =
      if needsDecode (h stat) then
        (match (decodePayload (h stat).Data).2 with
          | none => Except.ok stat
          | some err =>
            if err = StreamErr.ErrUnexpectedEOF then Except.ok stat
            else Except.error (Err.stream err),
         setData h stat (decodePayload (h stat).Data).1)
      else (Except.ok stat, h) := by
  unfold Fs.ReadBytes decodePayload readGzip
  rw [hfs]
  simp only
  split
  · next hn =>
    have hd : (h stat).data = [] := List.length_eq_zero.mp hn.2
    cases hz : gzipNewReader (base64NewDecoder (h stat).Data) with
    | ok gzr =>
      simp only
      cases hr : (ReadAll gzr).2 with
      | none => rfl
      | some err => simp only; split <;> rfl
    | error err =>
      have hs : setData h stat [] = h := by
        have := setData_same h stat
        rw [hd] at this
        exact this
      simp only [hs]
      split <;> rfl
  · rfl

theorem ReadBytes_absent (fs : Fs) (h : Heap) (name : String) (hfs : Fs.index fs name = none) :
    Fs.ReadBytes fs h name = (Except.error Err.ErrNotExist, h) := by
  unfold Fs.ReadBytes
  rw [hfs]

/-- A successful `ReadBytes` returns the pointer bound to the path. -/
theorem ReadBytes_ok (fs : Fs) (h : Heap) (name : String) (stat : Ptr)
    (hok : (Fs.ReadBytes fs h name).1 = Except.ok stat) : Fs.index fs name = some stat := by
  cases hfs : Fs.index fs name with
  | none => rw [ReadBytes_absent fs h name hfs] at hok; cases hok
  | some q =>
    rw [ReadBytes_present fs h name q hfs] at hok
    split at hok
    · simp only at hok
      split at hok
      · cases hok; rfl
      · split at hok
        · cases hok; rfl
        · cases hok
    · cases hok; rfl

/-- `Open` in terms of `ReadBytes`. -/
theorem Open_ok_iff (fs : Fs) (h : Heap) (name : String) (hf : httpFile) :
    (Fs.Open fs h name).1 = Except.ok hf ↔
      (Fs.ReadBytes fs h name).1 = Except.ok hf.stat ∧
        hf.reader = some (bytesNewReader ((Fs.ReadBytes fs h name).2 hf.stat).data) := by
  unfold Fs.Open
  rcases hr : Fs.ReadBytes fs h name with ⟨r, h1⟩
  cases r with
  | error e => simp
  | ok stat =>
    simp only [Except.ok.injEq]
    constructor
    · intro hh; subst hh; simp
    · rintro ⟨h1, h2⟩
      cases hf
      simp_all

theorem Open_heap (fs : Fs) (h : Heap) (name : String) :
    (Fs.Open fs h name).2 = (Fs.ReadBytes fs h name).2 := by
  unfold Fs.Open
  rcases hr : Fs.ReadBytes fs h name with ⟨r, h1⟩
  cases r <;> rfl

theorem Open_absent (fs : Fs) (h : Heap) (name : String) (hfs : Fs.index fs name = none) :
    Fs.Open fs h name = (Except.error Err.ErrNotExist, h) := by
  unfold Fs.Open
  rw [ReadBytes_absent fs h name hfs]

/-- `Open` of a record that needs no decoding. -/
theorem Open_cached (fs : Fs) (h : Heap) (name : String) (stat : Ptr)
    (hfs : Fs.index fs name = some stat) (hnd : ¬ needsDecode (h stat)) :
    Fs.Open fs h name =
      (Except.ok { stat := stat, reader := some (bytesNewReader (h stat).data) }, h) := by
  unfold Fs.Open
  rw [ReadBytes_present fs h name stat hfs, if_neg hnd]

/-- `Open` of a record that is decoded, when decoding ends without an error or
with the unexpected end of the stream. -/
theorem Open_decoded (fs : Fs) (h : Heap) (name : String) (stat : Ptr)
    (hfs : Fs.index fs name = some stat) (hnd : needsDecode (h stat))
    (hok : (decodePayload (h stat).Data).2 = none ∨
      (decodePayload (h stat).Data).2 = some StreamErr.ErrUnexpectedEOF) :
    Fs.Open fs h name =
      (Except.ok { stat := stat, reader := some (bytesNewReader (decodePayload (h stat).Data).1) },
        setData h stat (decodePayload (h stat).Data).1) := by
  unfold Fs.Open
  rw [ReadBytes_present fs h name stat hfs, if_pos hnd]
  rcases hok with hok | hok <;> simp [hok, setData_at]

/-- `Open` of a record that is decoded, when decoding stops with another
error. -/
theorem Open_failed (fs : Fs) (h : Heap) (name : String) (stat : Ptr)
    (hfs : Fs.index fs name = some stat) (hnd : needsDecode (h stat)) (e : StreamErr)
    (he : (decodePayload (h stat).Data).2 = some e) (hne : e ≠ StreamErr.ErrUnexpectedEOF) :
    Fs.Open fs h name =
      (Except.error (Err.stream e), setData h stat (decodePayload (h stat).Data).1) := by
  unfold Fs.Open
  rw [ReadBytes_present fs h name stat hfs, if_pos hnd]
  simp [he, hne]

/-- The three outcomes of decoding. -/
theorem decode_cases (s : Bytes) :
    ((decodePayload s).2 = none ∨ (decodePayload s).2 = some StreamErr.ErrUnexpectedEOF) ∨
      ∃ e, (decodePayload s).2 = some e ∧ e ≠ StreamErr.ErrUnexpectedEOF := by
  cases hd : (decodePayload s).2 with
  | none => exact Or.inl (Or.inl rfl)
  | some e =>
    by_cases he : e = StreamErr.ErrUnexpectedEOF
    · exact Or.inl (Or.inr (by rw [he]))
    · exact Or.inr ⟨e, rfl, he⟩

/-- `Open` changes no field of a record but its buffer. -/
theorem store_immutable_aux (fs : Fs) (h : Heap) (name : String) (q : Ptr) :
    sameRecord ((Fs.Open fs h name).2 q) (h q) := by
  rw [Open_heap]
  cases hfs : Fs.index fs name with
  | none => rw [ReadBytes_absent fs h name hfs]; simp [sameRecord]
  | some stat =>
    rw [ReadBytes_present fs h name stat hfs]
    split
    · exact setData_sameRecord _ _ _ _
    · simp [sameRecord]

/-! ## C7: the `Read` contract -/

/-- C7: a handle returned by `Open` wraps a `bytes.Reader` over the decoded
bytes `d` of its record at position 0.  At any position `i` and for any buffer
`p`: below the end, `Read` copies the `n = min(len p, len d - i)` bytes `d[i..i+n)`
into the front of `p`, moves to `i + n` and returns `n` with a nil error; at or
past the end it returns 0 with `io.EOF` and changes nothing.  The count is never
negative, and the first `Read` on the handle of an empty file returns `io.EOF`. -/
theorem httpFile_Read_contract (fs : Fs) (h : Heap) (name : String) (hf : httpFile)
    (hopen : (Fs.Open fs h name).1 = Except.ok hf) (i : Nat) (p : Bytes) :
    ∃ d : Bytes, d = ((Fs.Open fs h name).2 hf.stat).data ∧
      hf.reader = some { s := d, i := 0 } ∧
      (i < d.length →
        ((hf.withReader (some { s := d, i := i })).Read p).n = min p.length (d.length - i) ∧
        ((hf.withReader (some { s := d, i := i })).Read p).err = none ∧
        ((hf.withReader (some { s := d, i := i })).Read p).p =
          (d.drop i).take (min p.length (d.length - i)) ++ p.drop (min p.length (d.length - i)) ∧
        ((hf.withReader (some { s := d, i := i })).Read p).reader =
          some { s := d, i := i + min p.length (d.length - i) }) ∧
      (d.length ≤ i →
        ((hf.withReader (some { s := d, i := i })).Read p).n = 0 ∧
        ((hf.withReader (some { s := d, i := i })).Read p).err = some (Err.stream StreamErr.EOF) ∧
        ((hf.withReader (some { s := d, i := i })).Read p).p = p ∧
        ((hf.withReader (some { s := d, i := i })).Read p).reader = some { s := d, i := i }) ∧
      0 ≤ ((hf.withReader (some { s := d, i := i })).Read p).n ∧
      ((h hf.stat).FileSize = 0 → (h hf.stat).data = [] →
        (hf.Read p).n = 0 ∧ (hf.Read p).err = some (Err.stream StreamErr.EOF)) := by
  obtain ⟨hrb, hrd⟩ := (Open_ok_iff fs h name hf).mp hopen
  refine ⟨((Fs.Open fs h name).2 hf.stat).data, rfl, ?_, ?_, ?_, ?_, ?_⟩
  · rw [hrd, Open_heap]; rfl
  · intro hi
    have hlt : ¬ ((((Fs.Open fs h name).2 hf.stat).data.length : Int) ≤ (i : Int)) := by omega
    simp [httpFile.Read, httpFile.withReader, bytesReader.Read, hlt]
  · intro hi
    have hle : ((((Fs.Open fs h name).2 hf.stat).data.length : Int) ≤ (i : Int)) := by omega
    simp [httpFile.Read, httpFile.withReader, bytesReader.Read, hle]
  · simp only [httpFile.Read, httpFile.withReader, bytesReader.Read]
    split
    · exact le_refl _
    · simp
  · intro hsz hdat
    have hfs := ReadBytes_ok fs h name hf.stat hrb
    have hnd : ¬ needsDecode (h hf.stat) := by
      unfold needsDecode; omega
    have hheap : (Fs.ReadBytes fs h name).2 = h := by
      rw [ReadBytes_present fs h name hf.stat hfs, if_neg hnd]
    rw [hheap, hdat] at hrd
    simp [httpFile.Read, hrd, bytesNewReader, bytesReader.Read]

theorem httpFile_Read_contract_witness :
    (Fs.Open sampleStore.1 sampleStore.2 "/a.txt").1 = Except.ok helloHandle ∧
    ∃ d : Bytes, d = ((Fs.Open sampleStore.1 sampleStore.2 "/a.txt").2 helloHandle.stat).data ∧
      helloHandle.reader = some { s := d, i := 0 } ∧
      ((2 : Nat) < d.length →
        ((helloHandle.withReader (some { s := d, i := (2 : Nat) })).Read [0, 0]).n =
          min [(0 : Byte), 0].length (d.length - 2) ∧
        ((helloHandle.withReader (some { s := d, i := (2 : Nat) })).Read [0, 0]).err = none ∧
        ((helloHandle.withReader (some { s := d, i := (2 : Nat) })).Read [0, 0]).p =
          (d.drop 2).take (min [(0 : Byte), 0].length (d.length - 2)) ++
            [(0 : Byte), 0].drop (min [(0 : Byte), 0].length (d.length - 2)) ∧
        ((helloHandle.withReader (some { s := d, i := (2 : Nat) })).Read [0, 0]).reader =
          some { s := d, i := (2 : Nat) + min [(0 : Byte), 0].length (d.length - 2) }) ∧
      (d.length ≤ 2 →
        ((helloHandle.withReader (some { s := d, i := (2 : Nat) })).Read [0, 0]).n = 0 ∧
        ((helloHandle.withReader (some { s := d, i := (2 : Nat) })).Read [0, 0]).err =
          some (Err.stream StreamErr.EOF) ∧
        ((helloHandle.withReader (some { s := d, i := (2 : Nat) })).Read [0, 0]).p = [0, 0] ∧
        ((helloHandle.withReader (some { s := d, i := (2 : Nat) })).Read [0, 0]).reader =
          some { s := d, i := (2 : Nat) }) ∧
      0 ≤ ((helloHandle.withReader (some { s := d, i := (2 : Nat) })).Read [0, 0]).n ∧
      ((sampleStore.2 helloHandle.stat).FileSize = 0 → (sampleStore.2 helloHandle.stat).data = [] →
        (helloHandle.Read [0, 0]).n = 0 ∧
          (helloHandle.Read [0, 0]).err = some (Err.stream StreamErr.EOF)) :=
  ⟨by decide, httpFile_Read_contract sampleStore.1 sampleStore.2 "/a.txt" helloHandle (by decide) 2
    [0, 0]⟩

/-! ## C8: `Stat` -/

/-- C8: `Stat` on a handle that `Open` returned for a record gives, with a nil
error, the record itself as `os.FileInfo`: its `Name` is `FileName`, its `Size`
the declared `FileSize` (whatever the payload and the buffer are, after the
`Open` and after a `Close`), its `ModTime` is `time.Unix(FileModTime, 0)`, its
`IsDir` the directory flag, and its `Mode` is `0444`. -/
theorem httpFile_Stat_reports_record (fs : Fs) (h : Heap) (name : String) (hf : httpFile)
    (hopen : (Fs.Open fs h name).1 = Except.ok hf) :
    fs name = some (some hf.stat) ∧ hf.Stat = (some hf.stat, none) ∧
      ∀ h1 : Heap, h1 = (Fs.Open fs h name).2 ∨ h1 = (hf.Close (Fs.Open fs h name).2).2 →
        (h1 hf.stat).Name = (h hf.stat).FileName ∧
        (h1 hf.stat).Size = (h hf.stat).FileSize ∧
        (h1 hf.stat).ModTime = timeUnix (h hf.stat).FileModTime 0 ∧
        (h1 hf.stat).IsDir = (h hf.stat).FileIsDir ∧
        (h1 hf.stat).Mode = 0o444 := by
  obtain ⟨hrb, _⟩ := (Open_ok_iff fs h name hf).mp hopen
  have hfs := ReadBytes_ok fs h name hf.stat hrb
  have hsame : sameRecord ((Fs.Open fs h name).2 hf.stat) (h hf.stat) := by
    rw [Open_heap, ReadBytes_present fs h name hf.stat hfs]
    split
    · exact setData_sameRecord _ _ _ _
    · simp [sameRecord]
  refine ⟨Fs.index_some fs name hf.stat hfs, rfl, ?_⟩
  intro h1 hh
  have hs1 : sameRecord (h1 hf.stat) (h hf.stat) := by
    rcases hh with hh | hh
    · rw [hh]; exact hsame
    · rw [hh]
      have := setData_sameRecord (Fs.Open fs h name).2 hf.stat [] hf.stat
      unfold sameRecord at this hsame ⊢
      simp only [httpFile.Close]
      refine ⟨this.1.trans hsame.1, this.2.1.trans hsame.2.1, this.2.2.1.trans hsame.2.2.1,
        this.2.2.2.1.trans hsame.2.2.2.1, this.2.2.2.2.1.trans hsame.2.2.2.2.1,
        this.2.2.2.2.2.trans hsame.2.2.2.2.2⟩
  unfold sameRecord at hs1
  simp only [File.Name, File.Size, File.ModTime, File.IsDir, File.Mode]
  refine ⟨hs1.2.1, hs1.2.2.1, ?_, hs1.2.2.2.2.1, trivial⟩
  rw [hs1.2.2.2.1]

theorem httpFile_Stat_reports_record_witness :
    (Fs.Open sampleStore.1 sampleStore.2 "/a.txt").1 = Except.ok helloHandle ∧
    (sampleStore.1 "/a.txt" = some (some helloHandle.stat) ∧
      helloHandle.Stat = (some helloHandle.stat, none) ∧
      ∀ h1 : Heap, h1 = (Fs.Open sampleStore.1 sampleStore.2 "/a.txt").2 ∨
          h1 = (helloHandle.Close (Fs.Open sampleStore.1 sampleStore.2 "/a.txt").2).2 →
        (h1 helloHandle.stat).Name = (sampleStore.2 helloHandle.stat).FileName ∧
        (h1 helloHandle.stat).Size = (sampleStore.2 helloHandle.stat).FileSize ∧
        (h1 helloHandle.stat).ModTime = timeUnix (sampleStore.2 helloHandle.stat).FileModTime 0 ∧
        (h1 helloHandle.stat).IsDir = (sampleStore.2 helloHandle.stat).FileIsDir ∧
        (h1 helloHandle.stat).Mode = 0o444) :=
  ⟨by decide, httpFile_Stat_reports_record sampleStore.1 sampleStore.2 "/a.txt" helloHandle
    (by decide)⟩

/-! ## C3: directory handles -/

/-- C3 as stated fails.  In `sampleStore` the record of `/dir` is a directory;
`Open` succeeds, and on its handle `Read` returns 0 with `io.EOF` and
`Seek(0, io.SeekStart)` returns 0 with a nil error: neither fails with the
not-supported error.  And `Open` of a directory record that declares the size 1
with an empty payload fails with `io.EOF`. -/
theorem directory_read_seek_not_rejected :
    (sampleStore.1 "/dir" = some (some 2) ∧ (sampleStore.2 2).FileIsDir = true ∧
      (Fs.Open sampleStore.1 sampleStore.2 "/dir").1 = Except.ok dirHandle ∧
      (dirHandle.Read [0]).n = 0 ∧
      (dirHandle.Read [0]).err = some (Err.stream StreamErr.EOF) ∧
      (dirHandle.Seek 0 0).pos = 0 ∧ (dirHandle.Seek 0 0).err = none) ∧
    (sizedDirStore.1 "/d" = some (some 0) ∧ (sizedDirStore.2 0).FileIsDir = true ∧
      (Fs.Open sizedDirStore.1 sizedDirStore.2 "/d").1 =
        Except.error (Err.stream StreamErr.EOF)) := by
  decide

/-- C3, amended: for a path whose record is a directory of declared size 0,
`Open` succeeds and leaves the store as it is, `Stat` on the handle succeeds
and `Readdir` fails with the not-supported error.  `Read` and `Seek` are those
of a `bytes.Reader` over the record's buffer and never fail with the
not-supported error: with the empty buffer `Read` returns 0 and `io.EOF`, and
`Seek` to an offset `0 ≤ off` from the start returns `off`. -/
theorem directory_handle (fs : Fs) (h : Heap) (name : String) (stat : Ptr)
    (hfs : fs name = some (some stat)) (hdir : (h stat).FileIsDir = true)
    (hsize : (h stat).FileSize = 0) :
    ∃ hf : httpFile, Fs.Open fs h name = (Except.ok hf, h) ∧
      hf.stat = stat ∧ hf.reader = some (bytesNewReader (h stat).data) ∧
      hf.Stat = (some stat, none) ∧ (h stat).IsDir = true ∧
      (∀ n : Int, hf.Readdir n = (none, some Err.ErrNotSupported)) ∧
      (∀ p : Bytes, (hf.Read p).err ≠ some Err.ErrNotSupported ∧
        ((h stat).data = [] →
          (hf.Read p).n = 0 ∧ (hf.Read p).err = some (Err.stream StreamErr.EOF))) ∧
      (∀ off whence : Int, (hf.Seek off whence).err ≠ some Err.ErrNotSupported) ∧
      (∀ off : Int, 0 ≤ off → (hf.Seek off 0).pos = off ∧ (hf.Seek off 0).err = none) := by
  have hnd : ¬ needsDecode (h stat) := by unfold needsDecode; omega
  have hrb : Fs.ReadBytes fs h name = (Except.ok stat, h) := by
    rw [ReadBytes_present fs h name stat (Fs.index_bound fs name stat hfs), if_neg hnd]
  refine ⟨{ stat := stat, reader := some (bytesNewReader (h stat).data) }, ?_, rfl, rfl, rfl,
    hdir, fun _ => rfl, ?_, ?_, ?_⟩
  · unfold Fs.Open; rw [hrb]
  · intro p
    constructor
    · simp only [httpFile.Read, bytesReader.Read]
      split <;> simp
    · intro hd
      simp [httpFile.Read, bytesReader.Read, bytesNewReader, hd]
  · intro off whence
    simp only [httpFile.Seek, bytesReader.Seek]
    split_ifs <;> simp
  · intro off hoff
    have : ¬ off < 0 := by omega
    simp [httpFile.Seek, bytesReader.Seek, this]

theorem directory_handle_witness :
    (sampleStore.1 "/dir" = some (some 2) ∧ (sampleStore.2 2).FileIsDir = true ∧
      (sampleStore.2 2).FileSize = 0) ∧
    ∃ hf : httpFile, Fs.Open sampleStore.1 sampleStore.2 "/dir" = (Except.ok hf, sampleStore.2) ∧
      hf.stat = 2 ∧ hf.reader = some (bytesNewReader (sampleStore.2 2).data) ∧
      hf.Stat = (some 2, none) ∧ (sampleStore.2 2).IsDir = true ∧
      (∀ n : Int, hf.Readdir n = (none, some Err.ErrNotSupported)) ∧
      (∀ p : Bytes, (hf.Read p).err ≠ some Err.ErrNotSupported ∧
        ((sampleStore.2 2).data = [] →
          (hf.Read p).n = 0 ∧ (hf.Read p).err = some (Err.stream StreamErr.EOF))) ∧
      (∀ off whence : Int, (hf.Seek off whence).err ≠ some Err.ErrNotSupported) ∧
      (∀ off : Int, 0 ≤ off → (hf.Seek off 0).pos = off ∧ (hf.Seek off 0).err = none) :=
  ⟨by decide, directory_handle sampleStore.1 sampleStore.2 "/dir" 2 (by decide) (by decide)
    (by decide)⟩

/-! ## C2: lookup -/

/-- C2 as stated fails.  In `notGzipStore` the path `/x` is a key of the
store, and `Open` fails on it, with `gzip.ErrHeader`. -/
theorem open_fails_on_present_key :
    notGzipStore.1 "/x" = some (some 0) ∧
      (Fs.Open notGzipStore.1 notGzipStore.2 "/x").1 =
        Except.error (Err.stream StreamErr.gzipErrHeader) := by
  decide

/-- C2, amended: `Open(p)` fails with the not-found error exactly when `p` is
not a key of the store or is a key bound to the nil pointer (the strings are
compared for equality), and a successful `Open(p)` returns a handle on the
record bound to `p`.  For a key bound to a record, `Open` succeeds unless the
record has to be decoded (size above 0, empty buffer) and decoding stops with
an error other than the unexpected end of stream; it then fails with that
error. -/
theorem open_lookup (fs : Fs) (h : Heap) (name : String) :
    ((Fs.Open fs h name).1 = Except.error Err.ErrNotExist ↔
      (fs name = none ∨ fs name = some none)) ∧
    (∀ hf : httpFile, (Fs.Open fs h name).1 = Except.ok hf →
      fs name = some (some hf.stat)) ∧
    (∀ stat : Ptr, fs name = some (some stat) →
      ((∃ hf : httpFile, (Fs.Open fs h name).1 = Except.ok hf) ↔
        ¬ (needsDecode (h stat) ∧ ∃ e : StreamErr,
            (decodePayload (h stat).Data).2 = some e ∧ e ≠ StreamErr.ErrUnexpectedEOF)) ∧
      (∀ e : StreamErr, needsDecode (h stat) → (decodePayload (h stat).Data).2 = some e →
        e ≠ StreamErr.ErrUnexpectedEOF →
        (Fs.Open fs h name).1 = Except.error (Err.stream e))) := by
  refine ⟨?_, ?_, ?_⟩
  · rw [← Fs.index_none]
    constructor
    · intro herr
      cases hfs : Fs.index fs name with
      | none => rfl
      | some stat =>
        exfalso
        by_cases hnd : needsDecode (h stat)
        · rcases decode_cases (h stat).Data with hok | ⟨e, he, hne⟩
          · rw [Open_decoded fs h name stat hfs hnd hok] at herr; cases herr
          · rw [Open_failed fs h name stat hfs hnd e he hne] at herr; cases herr
        · rw [Open_cached fs h name stat hfs hnd] at herr; cases herr
    · intro hfs
      rw [Open_absent fs h name hfs]
  · intro hf hok
    exact Fs.index_some fs name hf.stat
      (ReadBytes_ok fs h name hf.stat ((Open_ok_iff fs h name hf).mp hok).1)
  · intro stat hfs0
    have hfs := Fs.index_bound fs name stat hfs0
    by_cases hnd : needsDecode (h stat)
    · rcases decode_cases (h stat).Data with hok | ⟨e, he, hne⟩
      · rw [Open_decoded fs h name stat hfs hnd hok]
        refine ⟨⟨fun _ => ?_, fun _ => ⟨_, rfl⟩⟩, ?_⟩
        · rintro ⟨_, e, he, hne⟩
          rcases hok with hok | hok
          · rw [hok] at he; cases he
          · rw [hok] at he; cases he; exact hne rfl
        · intro e _ he hne
          rcases hok with hok | hok
          · rw [hok] at he; cases he
          · rw [hok] at he; cases he; exact absurd rfl hne
      · rw [Open_failed fs h name stat hfs hnd e he hne]
        refine ⟨⟨?_, fun hno => absurd ⟨hnd, e, he, hne⟩ hno⟩, ?_⟩
        · rintro ⟨hf, hhf⟩; cases hhf
        · intro e2 _ he2 _
          rw [he] at he2; cases he2; rfl
    · rw [Open_cached fs h name stat hfs hnd]
      exact ⟨⟨fun _ hc => hnd hc.1, fun _ => ⟨_, rfl⟩⟩, fun e hc _ _ => absurd hc hnd⟩

/-! ## C4: the unexpected end of the stream -/

/-- C4 as stated fails.  The record of `/a.txt` in `sampleStore` has size 5
and an empty buffer, decoding its payload stops with `io.ErrUnexpectedEOF`, and
`Open` succeeds with a handle whose content is the five bytes `hello`, not the
empty content. -/
theorem unexpected_eof_content_not_empty :
    sampleStore.1 "/a.txt" = some (some 1) ∧ needsDecode (sampleStore.2 1) ∧
      (decodePayload (sampleStore.2 1).Data).2 = some StreamErr.ErrUnexpectedEOF ∧
      (Fs.Open sampleStore.1 sampleStore.2 "/a.txt").1 =
        Except.ok { stat := 1, reader := some (bytesNewReader (ascii "hello")) } ∧
      (ascii "hello").length = 5 := by
  decide

/-- C4, amended: for a record that is decoded (size above 0, empty buffer),
when decoding stops with the unexpected end of the stream `Open` succeeds and
the handle's content is the bytes decoded before the stream ended, which also
become the record's buffer; they are no bytes at all when it is
`gzip.NewReader` that stops.  When decoding stops with any other error, `Open`
fails with that error. -/
theorem open_decode_errors (fs : Fs) (h : Heap) (name : String) (stat : Ptr)
    (hfs : fs name = some (some stat)) (hnd : needsDecode (h stat)) :
    ((decodePayload (h stat).Data).2 = some StreamErr.ErrUnexpectedEOF →
      Fs.Open fs h name =
        (Except.ok { stat := stat,
                     reader := some (bytesNewReader (decodePayload (h stat).Data).1) },
          setData h stat (decodePayload (h stat).Data).1)) ∧
    (∀ e : StreamErr, gzipNewReader (base64NewDecoder (h stat).Data) = Except.error e →
      (decodePayload (h stat).Data).1 = []) ∧
    (∀ e : StreamErr, (decodePayload (h stat).Data).2 = some e →
      e ≠ StreamErr.ErrUnexpectedEOF →
      (Fs.Open fs h name).1 = Except.error (Err.stream e)) := by
  have hfs := Fs.index_bound fs name stat hfs
  refine ⟨fun he => Open_decoded fs h name stat hfs hnd (Or.inr he), ?_, ?_⟩
  · intro e he
    simp [decodePayload, readGzip, he]
  · intro e he hne
    rw [Open_failed fs h name stat hfs hnd e he hne]

theorem open_decode_errors_witness :
    (sampleStore.1 "/a.txt" = some (some 1) ∧ needsDecode (sampleStore.2 1)) ∧
    (((decodePayload (sampleStore.2 1).Data).2 = some StreamErr.ErrUnexpectedEOF →
      Fs.Open sampleStore.1 sampleStore.2 "/a.txt" =
        (Except.ok { stat := 1,
                     reader := some (bytesNewReader (decodePayload (sampleStore.2 1).Data).1) },
          setData sampleStore.2 1 (decodePayload (sampleStore.2 1).Data).1)) ∧
    (∀ e : StreamErr, gzipNewReader (base64NewDecoder (sampleStore.2 1).Data) = Except.error e →
      (decodePayload (sampleStore.2 1).Data).1 = []) ∧
    (∀ e : StreamErr, (decodePayload (sampleStore.2 1).Data).2 = some e →
      e ≠ StreamErr.ErrUnexpectedEOF →
      (Fs.Open sampleStore.1 sampleStore.2 "/a.txt").1 = Except.error (Err.stream e))) :=
  ⟨by decide, open_decode_errors sampleStore.1 sampleStore.2 "/a.txt" 1 (by decide) (by decide)⟩

/-! ## C6: lazy decoding and the buffer -/

/-- C6 as stated fails.  In `truncatedStore` the first `Open("/t")` succeeds,
and the record still satisfies the condition under which `ReadBytes` decodes:
a second `Open("/t")` with no `Close` in between decodes the payload again. -/
theorem second_open_decodes_again :
    truncatedStore.1 "/t" = some (some 0) ∧
      (Fs.Open truncatedStore.1 truncatedStore.2 "/t").1 = Except.ok truncatedHandle ∧
      needsDecode ((Fs.Open truncatedStore.1 truncatedStore.2 "/t").2 0) := by
  decide

/-- C6, amended: a freshly loaded store has an empty buffer in every record.
After a successful `Open(p)`, a second `Open(p)` with no `Close` in between
returns the same handle contents and leaves every record as it is; it does no
decoding when the first `Open` left a non-empty buffer or the record's size is
not above 0. -/
theorem second_open_cached (files : List GenFile) (fs : Fs) (h : Heap) (name : String)
    (hf : httpFile) (hopen : (Fs.Open fs h name).1 = Except.ok hf) :
    (∀ p : Ptr, ((loadStore files).2 p).data = []) ∧
    Fs.Open fs (Fs.Open fs h name).2 name = (Except.ok hf, (Fs.Open fs h name).2) ∧
    ((((Fs.Open fs h name).2 hf.stat).data ≠ [] ∨ (h hf.stat).FileSize ≤ 0) →
      ¬ needsDecode ((Fs.Open fs h name).2 hf.stat)) := by
  have hfs : Fs.index fs name = some hf.stat :=
    ReadBytes_ok fs h name hf.stat ((Open_ok_iff fs h name hf).mp hopen).1
  refine ⟨?_, ?_, ?_⟩
  · intro p
    simp only [loadStore]
    cases files.get? p with
    | none => rfl
    | some g =>
      simp only [Option.map_some', Option.getD_some, renderFile]
      split <;> rfl
  · by_cases hnd : needsDecode (h hf.stat)
    · rcases decode_cases (h hf.stat).Data with hok | ⟨e, he, hne⟩
      · have h1 := Open_decoded fs h name hf.stat hfs hnd hok
        rw [h1] at hopen ⊢
        simp only [Except.ok.injEq] at hopen
        have hData : (setData h hf.stat (decodePayload (h hf.stat).Data).1 hf.stat).Data =
            (h hf.stat).Data := (setData_sameRecord h hf.stat _ hf.stat).2.2.2.2.2
        by_cases hnd2 : needsDecode (setData h hf.stat (decodePayload (h hf.stat).Data).1 hf.stat)
        · rw [Open_decoded fs _ name hf.stat hfs hnd2 (by rw [hData]; exact hok), hData, hopen]
          congr 1
          funext q
          simp only [setData]
          split <;> rfl
        · rw [Open_cached fs _ name hf.stat hfs hnd2, setData_at, hopen]
      · rw [Open_failed fs h name hf.stat hfs hnd e he hne] at hopen; cases hopen
    · have h1 := Open_cached fs h name hf.stat hfs hnd
      rw [h1] at hopen ⊢
      simp only [Except.ok.injEq] at hopen
      rw [Open_cached fs h name hf.stat hfs hnd, hopen]
  · intro hor hnd
    rcases hor with hne | hsz
    · exact hne (List.length_eq_zero.mp hnd.2)
    · have hs : ((Fs.Open fs h name).2 hf.stat).FileSize = (h hf.stat).FileSize :=
        ((store_immutable_aux fs h name hf.stat)).2.2.1
      have := hnd.1
      omega

theorem second_open_cached_witness :
    (Fs.Open sampleStore.1 sampleStore.2 "/a.txt").1 = Except.ok helloHandle ∧
    ((∀ p : Ptr, ((loadStore sampleFiles).2 p).data = []) ∧
    Fs.Open sampleStore.1 (Fs.Open sampleStore.1 sampleStore.2 "/a.txt").2 "/a.txt" =
      (Except.ok helloHandle, (Fs.Open sampleStore.1 sampleStore.2 "/a.txt").2) ∧
    ((((Fs.Open sampleStore.1 sampleStore.2 "/a.txt").2 helloHandle.stat).data ≠ [] ∨
        (sampleStore.2 helloHandle.stat).FileSize ≤ 0) →
      ¬ needsDecode ((Fs.Open sampleStore.1 sampleStore.2 "/a.txt").2 helloHandle.stat))) :=
  ⟨by decide, second_open_cached sampleFiles sampleStore.1 sampleStore.2 "/a.txt" helloHandle (by decide)⟩

/-! ## C5: opening again after a close -/

/-- C5 fails on the code after an `Open` that failed.  In `badChecksumStore`
the first `Open("/f")` fails with `gzip.ErrChecksum` and leaves the five bytes
it had read in the record's buffer; the next `Open("/f")` therefore succeeds,
with the content `hello`; `Close` on its handle empties the buffer; and the
`Open("/f")` after that decodes the payload again and fails with
`gzip.ErrChecksum`, where the claim has it yield the content of the open
before. -/
theorem reopen_after_close_fails :
    (Fs.Open badChecksumStore.1 badChecksumStore.2 "/f").1 =
        Except.error (Err.stream StreamErr.gzipErrChecksum) ∧
      (badChecksumHeap1 0).data = ascii "hello" ∧
      (Fs.Open badChecksumStore.1 badChecksumHeap1 "/f").1 = Except.ok staleHandle ∧
      (badChecksumHeap2 0).data = [] ∧
      (Fs.Open badChecksumStore.1 badChecksumHeap2 "/f").1 =
        Except.error (Err.stream StreamErr.gzipErrChecksum) := by
  decide

/-- From a record whose buffer is empty (a fresh store, or after a `Close`),
`Open`, `Close`, `Open` does yield the same content twice: the `Close` brings
the heap back to what it was before the first `Open`. -/
theorem reopen_after_close_from_empty_buffer (fs : Fs) (h : Heap) (name : String)
    (hf : httpFile) (hopen : (Fs.Open fs h name).1 = Except.ok hf)
    (hempty : (h hf.stat).data = []) :
    (hf.Close (Fs.Open fs h name).2).2 = h ∧
      (Fs.Open fs (hf.Close (Fs.Open fs h name).2).2 name).1 = Except.ok hf := by
  have hfs : Fs.index fs name = some hf.stat :=
    ReadBytes_ok fs h name hf.stat ((Open_ok_iff fs h name hf).mp hopen).1
  have hback : setData h hf.stat [] = h := by
    have := setData_same h hf.stat
    rw [hempty] at this
    exact this
  have hclose : (hf.Close (Fs.Open fs h name).2).2 = h := by
    simp only [httpFile.Close, Open_heap]
    rw [ReadBytes_present fs h name hf.stat hfs]
    split
    · simp only [setData_setData]; exact hback
    · exact hback
  exact ⟨hclose, by rw [hclose]; exact hopen⟩

/-! ## C10: chunking -/

theorem encodeStd_not_newline (n : Nat) : (encodeStd n).val ≠ 10 ∧ (encodeStd n).val ≠ 13 := by
  have hn : n % 64 < 64 := Nat.mod_lt n (by decide)
  unfold encodeStd
  simp only [mkByte]
  split_ifs <;> constructor <;> simp <;> omega

theorem stdEncode_not_newline (data : Bytes) :
    ∀ c ∈ stdEncode data, c.val ≠ 10 ∧ c.val ≠ 13 := by
  induction data using stdEncode.induct with
  | case1 => simp [stdEncode]
  | case2 a =>
    intro c hc
    simp only [stdEncode, List.mem_cons, List.mem_singleton, List.not_mem_nil, or_false] at hc
    rcases hc with hc | hc | hc | hc <;> subst hc <;>
      first | exact encodeStd_not_newline _ | decide
  | case3 a b =>
    intro c hc
    simp only [stdEncode, List.mem_cons, List.mem_singleton, List.not_mem_nil, or_false] at hc
    rcases hc with hc | hc | hc | hc <;> subst hc <;>
      first | exact encodeStd_not_newline _ | decide
  | case4 a b c rest ih =>
    intro x hx
    simp only [stdEncode, List.mem_cons] at hx
    rcases hx with hx | hx | hx | hx | hx
    · subst hx; exact encodeStd_not_newline _
    · subst hx; exact encodeStd_not_newline _
    · subst hx; exact encodeStd_not_newline _
    · subst hx; exact encodeStd_not_newline _
    · exact ih x hx

/-- The loop appends to the builder the pieces of `chunkLines`, a newline after
each. -/
theorem chunkLoop_eq (fuel chunkSize : Nat) (r w : Bytes) :
    chunkLoop fuel chunkSize r w =
      w ++ ((chunkLines fuel chunkSize r).map (fun l => l ++ [newline])).flatten := by
  induction fuel generalizing r w with
  | zero => simp [chunkLoop, chunkLines]
  | succ fuel ih =>
    simp only [chunkLoop, chunkLines]
    split
    · simp
    · rw [ih]; simp

/-- With more fuel than bytes to read, the pieces make up the text. -/
theorem chunkLines_join (fuel chunkSize : Nat) (r : Bytes) (hk : 1 ≤ chunkSize)
    (hfuel : r.length < fuel) : (chunkLines fuel chunkSize r).flatten = r := by
  induction fuel generalizing r with
  | zero => omega
  | succ fuel ih =>
    simp only [chunkLines]
    split
    · next h0 =>
      simp only [List.length_take] at h0
      have : r.length = 0 := by omega
      simp [List.length_eq_zero.mp this]
    · next h0 =>
      simp only [List.length_take] at h0
      have hlen : (r.drop chunkSize).length < fuel := by
        simp only [List.length_drop]; omega
      rw [List.flatten_cons, ih _ hlen, List.take_append_drop]

theorem chunkLines_bound (fuel chunkSize : Nat) (r : Bytes) :
    ∀ l ∈ chunkLines fuel chunkSize r, l ≠ [] ∧ l.length ≤ chunkSize := by
  induction fuel generalizing r with
  | zero => simp [chunkLines]
  | succ fuel ih =>
    simp only [chunkLines]
    split
    · simp
    · next h0 =>
      intro l hl
      rcases List.mem_cons.mp hl with hl | hl
      · subst hl
        refine ⟨fun hnil => h0 (by rw [hnil]; rfl), ?_⟩
        simp only [List.length_take]; omega
      · exact ih _ l hl

theorem chunkLines_full (fuel chunkSize : Nat) (r : Bytes) :
    ∀ l ∈ (chunkLines fuel chunkSize r).dropLast, l.length = chunkSize := by
  induction fuel generalizing r with
  | zero => simp [chunkLines]
  | succ fuel ih =>
    simp only [chunkLines]
    split
    · simp
    · next h0 =>
      intro l hl
      cases hrest : chunkLines fuel chunkSize (r.drop chunkSize) with
      | nil => rw [hrest] at hl; simp at hl
      | cons x xs =>
        rw [hrest, List.dropLast_cons₂] at hl
        rcases List.mem_cons.mp hl with hl | hl
        · subst hl
          have hx := chunkLines_bound fuel chunkSize (r.drop chunkSize) x (by rw [hrest]; simp)
          have hd : (r.drop chunkSize).length ≠ 0 := by
            intro hz
            have hnil : r.drop chunkSize = [] := List.length_eq_zero.mp hz
            cases fuel with
            | zero => simp [chunkLines] at hrest
            | succ f => simp [chunkLines, hnil] at hrest
          simp only [List.length_drop] at hd
          simp only [List.length_take]; omega
        · have := ih (r.drop chunkSize) l (by rw [hrest]; exact hl)
          exact this

theorem filter_lines (p : Byte → Bool) (hp : p newline = false) (lines : List Bytes) :
    ((lines.map (fun l => l ++ [newline])).flatten).filter p = lines.flatten.filter p := by
  induction lines with
  | nil => rfl
  | cons l ls ih => simp [List.filter_append, ih, hp]

/-- Filtering out a set of characters that holds the newline and no character
of the base64 text gives that text back. -/
theorem chunkBase64Encode_filter (data : Bytes) (chunkSize : Nat) (hk : 1 ≤ chunkSize)
    (p : Byte → Bool) (hnl : p newline = false) (hp : ∀ c ∈ stdEncode data, p c = true) :
    (chunkBase64Encode data chunkSize).filter p = stdEncode data := by
  unfold chunkBase64Encode
  simp only
  split
  · exact List.filter_eq_self.mpr hp
  · rw [chunkLoop_eq, List.filter_append, filter_lines p hnl,
      chunkLines_join _ _ _ hk (Nat.lt_succ_self _)]
    simp [hnl, List.filter_eq_self.mpr hp]

/-- C10: for `chunkSize ≥ 1`, deleting the newlines from
`chunkBase64Encode(data, chunkSize)` gives the standard base64 text of `data`;
and when that text is longer than `chunkSize`, the output is a newline followed
by the lines of the text, each with a newline after it, where the lines are
consecutive pieces of the text, all of `chunkSize` characters except possibly
the last, and none empty. -/
theorem chunkBase64Encode_lines (data : Bytes) (chunkSize : Nat) (hk : 1 ≤ chunkSize) :
    (chunkBase64Encode data chunkSize).filter (fun c => c ≠ newline) = stdEncode data ∧
    (chunkSize < (stdEncode data).length →
      ∃ lines : List Bytes,
        chunkBase64Encode data chunkSize =
          newline :: (lines.map (fun l => l ++ [newline])).flatten ∧
        lines.flatten = stdEncode data ∧
        (∀ l ∈ lines.dropLast, l.length = chunkSize) ∧
        (∀ l ∈ lines, l ≠ [] ∧ l.length ≤ chunkSize)) := by
  constructor
  · apply chunkBase64Encode_filter data chunkSize hk
    · simp
    · intro c hc
      have := (stdEncode_not_newline data c hc).1
      simp only [ne_eq, decide_not, Bool.not_eq_true', decide_eq_false_iff_not]
      intro hcn
      rw [hcn] at this
      exact this (by decide)
  · intro hlong
    refine ⟨chunkLines ((stdEncode data).length + 1) chunkSize (stdEncode data), ?_,
      chunkLines_join _ _ _ hk (Nat.lt_succ_self _), chunkLines_full _ _ _, chunkLines_bound _ _ _⟩
    unfold chunkBase64Encode
    simp only
    rw [if_neg (by omega), chunkLoop_eq]
    rfl

theorem chunkBase64Encode_lines_witness :
    1 ≤ 8 ∧
    ((chunkBase64Encode (ascii "hello world") 8).filter (fun c => c ≠ newline) =
        stdEncode (ascii "hello world") ∧
    (8 < (stdEncode (ascii "hello world")).length →
      ∃ lines : List Bytes,
        chunkBase64Encode (ascii "hello world") 8 =
          newline :: (lines.map (fun l => l ++ [newline])).flatten ∧
        lines.flatten = stdEncode (ascii "hello world") ∧
        (∀ l ∈ lines.dropLast, l.length = 8) ∧
        (∀ l ∈ lines, l ≠ [] ∧ l.length ≤ 8))) :=
  ⟨by decide, chunkBase64Encode_lines (ascii "hello world") 8 (by decide)⟩

/-! ## The text half of the wire format -/

theorem decodeStd_encodeStd (n : Nat) : decodeStd (encodeStd n) = some (n % 64) := by
  have h : ∀ m, m < 64 → decodeStd (encodeStd m) = some m := by decide
  have h2 : encodeStd n = encodeStd (n % 64) := by simp [encodeStd]
  rw [h2]
  exact h (n % 64) (Nat.mod_lt n (by decide))

theorem decodeStd_padChar : decodeStd padChar = none := by decide

theorem mkByte_eq (n : Nat) (a : Byte) (h : n % 256 = a.val) : mkByte n = a :=
  Fin.ext h

/-- One call of `Decode` on the base64 text of `data` gives `data` and no
error. -/
theorem decodeChunk_stdEncode (data : Bytes) :
    decodeChunk (stdEncode data) = (data, none) := by
  induction data using stdEncode.induct with
  | case1 => rfl
  | case2 a =>
    simp only [stdEncode]
    rw [decodeChunk.eq_2]
    simp only [decodeStd_encodeStd, decodeStd_padChar, and_self, if_true, List.length_nil]
    have ha := a.isLt
    refine Prod.ext ?_ rfl
    simp only [List.cons.injEq, and_true]
    apply mkByte_eq
    omega
  | case3 a b =>
    simp only [stdEncode]
    rw [decodeChunk.eq_2]
    simp only [decodeStd_encodeStd, decodeStd_padChar, if_true, List.length_nil]
    have ha := a.isLt
    have hb := b.isLt
    refine Prod.ext ?_ rfl
    simp only [List.cons.injEq, and_true]
    constructor <;> apply mkByte_eq <;> omega
  | case4 a b c rest ih =>
    simp only [stdEncode]
    rw [decodeChunk.eq_2]
    simp only [decodeStd_encodeStd, ih]
    have ha := a.isLt
    have hb := b.isLt
    have hc := c.isLt
    refine Prod.ext ?_ rfl
    simp only [List.cons.injEq, and_true]
    refine ⟨?_, ?_, ?_⟩ <;> apply mkByte_eq <;> omega

theorem stdEncode_length_mod (data : Bytes) : (stdEncode data).length % 4 = 0 := by
  induction data using stdEncode.induct with
  | case1 => rfl
  | case2 a => simp [stdEncode]
  | case3 a b => simp [stdEncode]
  | case4 a b c rest ih => simp only [stdEncode, List.length_cons]; omega

/-- A prefix of whole quanta of the base64 text of `z` is the text of a prefix
of `z`, and what follows it is the text of the rest. -/
theorem stdEncode_split (k : Nat) (z : Bytes) (hk : 4 * k ≤ (stdEncode z).length) :
    (stdEncode z).take (4 * k) = stdEncode (z.take (3 * k)) ∧
      (stdEncode z).drop (4 * k) = stdEncode (z.drop (3 * k)) := by
  induction k generalizing z with
  | zero => simp [stdEncode]
  | succ k ih =>
    have e4 : 4 * (k + 1) = 4 * k + 1 + 1 + 1 + 1 := by omega
    have e3 : 3 * (k + 1) = 3 * k + 1 + 1 + 1 := by omega
    match z with
    | [] => simp [stdEncode] at hk
    | [a] =>
      simp only [stdEncode, List.length_cons, List.length_nil] at hk
      have : k = 0 := by omega
      subst this
      simp [stdEncode]
    | [a, b] =>
      simp only [stdEncode, List.length_cons, List.length_nil] at hk
      have : k = 0 := by omega
      subst this
      simp [stdEncode]
    | a :: b :: c :: rest =>
      have hk2 : 4 * k ≤ (stdEncode rest).length := by
        simp only [stdEncode, List.length_cons] at hk
        omega
      have := ih rest hk2
      rw [e4, e3]
      simp only [stdEncode, List.take_succ_cons, List.drop_succ_cons]
      exact ⟨by rw [this.1], this.2⟩

theorem newlineFilter_append (a b : Bytes) :
    newlineFilter (a ++ b) = newlineFilter a ++ newlineFilter b := by
  simp [newlineFilter]

/-- What one read of the filtering reader delivers and leaves. -/
theorem filteredRead_spec (fuel k : Nat) (raw : Bytes) (hk : 1 ≤ k) (hfuel : raw.length < fuel) :
    (filteredRead fuel k raw).1 ++ newlineFilter (filteredRead fuel k raw).2 =
        newlineFilter raw ∧
      ((filteredRead fuel k raw).1.length = 0 → (filteredRead fuel k raw).2.length = 0) ∧
      (raw.length ≠ 0 → (filteredRead fuel k raw).2.length < raw.length) := by
  induction fuel generalizing raw with
  | zero => omega
  | succ fuel ih =>
    simp only [filteredRead]
    split
    · next h0 =>
      have : raw = [] := List.length_eq_zero.mp h0
      subst this
      simp [newlineFilter]
    · next h0 =>
      have hdrop : (raw.drop k).length < raw.length := by
        simp only [List.length_drop]; omega
      split
      · next hf =>
        have hnil : newlineFilter (raw.take k) = [] := List.length_eq_zero.mp hf
        have := ih (raw.drop k) (by omega)
        refine ⟨?_, this.2.1, fun _ => ?_⟩
        · rw [this.1]
          conv_rhs => rw [← List.take_append_drop k raw, newlineFilter_append, hnil]
          rfl
        · by_cases hd : (raw.drop k).length = 0
          · have := this.2.1
            have h1 := ih (raw.drop k) (by omega)
            have hz : (filteredRead fuel k (raw.drop k)).2.length ≤ (raw.drop k).length := by
              have hd2 : raw.drop k = [] := List.length_eq_zero.mp hd
              rw [hd2]
              cases fuel with
              | zero => simp [filteredRead]
              | succ f => simp [filteredRead]
            omega
          · have := this.2.2 hd
            omega
      · next hf =>
        refine ⟨?_, fun h => absurd h hf, fun _ => hdrop⟩
        conv_rhs => rw [← List.take_append_drop k raw, newlineFilter_append]

/-- What the filling loop leaves in the buffer and of the text. -/
theorem refill_spec (fuel : Nat) (buf raw : Bytes) (hfuel : raw.length < fuel) :
    (refill fuel buf raw).1 ++ newlineFilter (refill fuel buf raw).2 =
        buf ++ newlineFilter raw ∧
      (4 ≤ (refill fuel buf raw).1.length ∨ (refill fuel buf raw).2.length = 0) := by
  induction fuel generalizing buf raw with
  | zero => omega
  | succ fuel ih =>
    simp only [refill]
    split
    · next hc =>
      have hs := filteredRead_spec (raw.length + 1) (1024 - buf.length) raw (by omega)
        (Nat.lt_succ_self _)
      have hlt := hs.2.2 hc.2
      have := ih (buf ++ (filteredRead (raw.length + 1) (1024 - buf.length) raw).1)
        (filteredRead (raw.length + 1) (1024 - buf.length) raw).2 (by omega)
      refine ⟨?_, this.2⟩
      rw [this.1, List.append_assoc, hs.1]
    · next hc =>
      refine ⟨rfl, ?_⟩
      show 4 ≤ buf.length ∨ raw.length = 0
      by_cases h4 : buf.length < 4
      · right
        by_contra hne
        exact hc ⟨h4, hne⟩
      · left; omega

/-- The reads of the decoder deliver the bytes whose base64 text the buffer and
the filtered text make up. -/
theorem decoderReads_stdEncode (fuel : Nat) (buf raw z : Bytes)
    (hT : buf ++ newlineFilter raw = stdEncode z) (hfuel : (stdEncode z).length < fuel) :
    decoderReads fuel buf raw = (z, StreamErr.EOF) := by
  induction fuel generalizing buf raw z with
  | zero => omega
  | succ fuel ih =>
    have hr := refill_spec (raw.length + 1) buf raw (Nat.lt_succ_self _)
    rw [hT] at hr
    have hmod := stdEncode_length_mod z
    have hlenT : (refill (raw.length + 1) buf raw).1.length +
        (newlineFilter (refill (raw.length + 1) buf raw).2).length = (stdEncode z).length := by
      rw [← hr.1, List.length_append]
    simp only [decoderReads]
    split
    · next hlt =>
      have hrest : (refill (raw.length + 1) buf raw).2 = [] := by
        rcases hr.2 with h4 | h0
        · omega
        · exact List.length_eq_zero.mp h0
      rw [hrest] at hlenT
      simp only [newlineFilter, List.filter_nil, List.length_nil, Nat.add_zero] at hlenT
      have hz0 : (stdEncode z).length = 0 := by omega
      have hb0 : (refill (raw.length + 1) buf raw).1.length = 0 := by omega
      have hz : z = [] := by
        match z, hz0 with
        | [], _ => rfl
        | [a], h => simp [stdEncode] at h
        | [a, b], h => simp [stdEncode] at h
        | a :: b :: c :: rest, h => simp [stdEncode] at h
      simp [hb0, hz]
    · next hge =>
      have hsplitT : stdEncode z =
          (refill (raw.length + 1) buf raw).1.take
              ((refill (raw.length + 1) buf raw).1.length / 4 * 4) ++
            ((refill (raw.length + 1) buf raw).1.drop
                ((refill (raw.length + 1) buf raw).1.length / 4 * 4) ++
              newlineFilter (refill (raw.length + 1) buf raw).2) := by
        rw [← List.append_assoc, List.take_append_drop]
        exact hr.1.symm
      have hnr : (refill (raw.length + 1) buf raw).1.length / 4 * 4 =
          4 * ((refill (raw.length + 1) buf raw).1.length / 4) := by omega
      have hk : 4 * ((refill (raw.length + 1) buf raw).1.length / 4) ≤ (stdEncode z).length := by
        omega
      have hsp := stdEncode_split ((refill (raw.length + 1) buf raw).1.length / 4) z hk
      have htake : (refill (raw.length + 1) buf raw).1.take
          ((refill (raw.length + 1) buf raw).1.length / 4 * 4) =
          stdEncode (z.take (3 * ((refill (raw.length + 1) buf raw).1.length / 4))) := by
        rw [← hsp.1, ← hnr]
        conv_rhs => rw [hsplitT]
        rw [List.take_left']
        simp only [List.length_take]
        omega
      have hdrop : (refill (raw.length + 1) buf raw).1.drop
            ((refill (raw.length + 1) buf raw).1.length / 4 * 4) ++
          newlineFilter (refill (raw.length + 1) buf raw).2 =
          stdEncode (z.drop (3 * ((refill (raw.length + 1) buf raw).1.length / 4))) := by
        rw [← hsp.2, ← hnr]
        conv_rhs => rw [hsplitT]
        rw [List.drop_left']
        simp only [List.length_take]
        omega
      have hlen2 : (stdEncode (z.drop (3 * ((refill (raw.length + 1) buf raw).1.length / 4)))).length
          < fuel := by
        rw [← hsp.2, List.length_drop]
        omega
      rw [htake, decodeChunk_stdEncode]
      simp only
      rw [ih _ _ _ hdrop hlen2]
      simp

/-- The text half of the round trip: from the text that `chunkBase64Encode`
writes for the bytes `z`, with any chunk size of 1 or more, the decoder of
`ReadBytes` reads the bytes `z` and then a clean end. -/
theorem base64NewDecoder_chunkBase64Encode (z : Bytes) (chunkSize : Nat) (hk : 1 ≤ chunkSize) :
    base64NewDecoder (chunkBase64Encode z chunkSize) = { data := z, err := StreamErr.EOF } := by
  have hf : newlineFilter (chunkBase64Encode z chunkSize) = stdEncode z := by
    unfold newlineFilter
    apply chunkBase64Encode_filter z chunkSize hk
    · decide
    · intro c hc
      have := stdEncode_not_newline z c hc
      simp [this.1, this.2]
  have hlen : (stdEncode z).length ≤ (chunkBase64Encode z chunkSize).length := by
    rw [← hf]
    exact List.length_filter_le _ _
  have := decoderReads_stdEncode ((chunkBase64Encode z chunkSize).length + 1) []
    (chunkBase64Encode z chunkSize) z (by simpa using hf) (by omega)
  unfold base64NewDecoder
  rw [this]

/-- A record that has to be decoded and whose payload is the text that
`chunkBase64Encode` writes, at width 64, for a gzip stream `z` that reads back
as `content` followed by the unexpected end of the stream, is opened with the
content `content`. -/
theorem open_flushed_stream (fs : Fs) (h : Heap) (name : String) (stat : Ptr)
    (z content : Bytes)
    (hz : readGzip { data := z, err := StreamErr.EOF } =
      (content, some StreamErr.ErrUnexpectedEOF))
    (hfs : fs name = some (some stat)) (hData : (h stat).Data = chunkBase64Encode z 64)
    (hnd : needsDecode (h stat)) :
    (Fs.Open fs h name).1 =
      Except.ok { stat := stat, reader := some (bytesNewReader content) } := by
  have hdec : decodePayload (h stat).Data = (content, some StreamErr.ErrUnexpectedEOF) := by
    unfold decodePayload
    rw [hData, base64NewDecoder_chunkBase64Encode _ 64 (by decide)]
    exact hz
  rw [Open_decoded fs h name stat (Fs.index_bound fs name stat hfs) hnd (Or.inr (by rw [hdec])),
    hdec]

/-! ## C9: what an operation may write -/

namespace Shared

theorem writeAt_length (a : Bytes) (off : Nat) (src : Bytes) :
    (writeAt a off src).length = a.length := by
  induction a generalizing off src with
  | nil => simp [writeAt]
  | cons x a ih =>
    cases off with
    | zero =>
      cases src with
      | nil => simp [writeAt]
      | cons y src => simp [writeAt, ih]
    | succ off => simp [writeAt, ih]

theorem writeAt_outside (a : Bytes) (off : Nat) (src : Bytes) (j : Nat)
    (hj : j < off ∨ off + src.length ≤ j) : (writeAt a off src)[j]? = a[j]? := by
  induction a generalizing off src j with
  | nil => simp [writeAt]
  | cons x a ih =>
    cases off with
    | zero =>
      cases src with
      | nil => simp [writeAt]
      | cons y src =>
        cases j with
        | zero => simp at hj
        | succ j =>
          simp only [writeAt, List.getElem?_cons_succ]
          apply ih
          simp only [List.length_cons] at hj
          omega
    | succ off =>
      cases j with
      | zero => simp [writeAt]
      | succ j =>
        simp only [writeAt, List.getElem?_cons_succ]
        apply ih
        omega

/-- The bytes a slice shows are those of its array at the slice's places. -/
theorem contents_congr (m1 m2 : Nat → Bytes) (s : Slice)
    (h : ∀ j, s.off ≤ j → j < s.off + s.len → (m1 s.array)[j]? = (m2 s.array)[j]?) :
    contents m1 (some s) = contents m2 (some s) := by
  simp only [contents]
  apply List.ext_getElem?
  intro j
  simp only [List.getElem?_take, List.getElem?_drop]
  split
  · next hj => exact h (s.off + j) (by omega) (by omega)
  · rfl

/-- `ReadBytes` leaves the state as it was or assigns the record bound to the
path a newly allocated slice. -/
theorem ReadBytes_state (fs : Fs) (w : State) (name : String) :
    (Fs.ReadBytes fs w name).2 = w ∨
      ∃ stat d, Fs.index fs name = some stat ∧ (Fs.ReadBytes fs w name).2 = w.assignFresh stat d := by
  unfold Fs.ReadBytes
  cases hfs : Fs.index fs name with
  | none => exact Or.inl rfl
  | some stat =>
    simp only
    split
    · cases hz : gzipNewReader (base64NewDecoder (w.files stat).Data) with
      | ok gzr =>
        refine Or.inr ⟨stat, (ReadAll gzr).1, rfl, ?_⟩
        simp only
        cases (ReadAll gzr).2 with
        | none => rfl
        | some err => simp only; split <;> rfl
      | error err =>
        refine Or.inl ?_
        simp only
        split <;> rfl
    · exact Or.inl rfl

theorem Open_state (fs : Fs) (w : State) (name : String) :
    (Fs.Open fs w name).2 = (Fs.ReadBytes fs w name).2 := by
  unfold Fs.Open
  rcases hr : Fs.ReadBytes fs w name with ⟨r, w1⟩
  cases r <;> rfl

theorem MustReadBytes_state (fs : Fs) (w : State) (name : String) :
    (Fs.MustReadBytes fs w name).2 = (Fs.ReadBytes fs w name).2 := by
  unfold Fs.MustReadBytes
  rcases hr : Fs.ReadBytes fs w name with ⟨r, w1⟩
  cases r <;> rfl

/-- What a call may write, stated for a state `w2` that is the state `w` or the
state after an assignment of a new slice to the accessed record. -/
theorem frame_of_assign (w w2 : State) (acc : Option Ptr)
    (h : w2 = w ∨ ∃ stat d, acc = some stat ∧ w2 = w.assignFresh stat d) :
    (∀ q, sameRecord (w2.files q) (w.files q)) ∧
    (∀ q, acc ≠ some q → (w2.files q).data = (w.files q).data) ∧
    (∀ a, a < w.next → w2.arrays a = w.arrays a) := by
  rcases h with h | ⟨stat, d, hacc, h⟩
  · subst h
    exact ⟨fun q => by simp [sameRecord], fun _ _ => rfl, fun _ _ => rfl⟩
  · subst h
    refine ⟨?_, ?_, ?_⟩
    · intro q
      simp only [State.assignFresh, sameRecord]
      split
      · next hq => subst hq; simp
      · simp
    · intro q hq
      have : q ≠ stat := by
        intro hqs; apply hq; rw [hacc, hqs]
      simp [State.assignFresh, this]
    · intro a ha
      have : a ≠ w.next := by omega
      simp [State.assignFresh, this]

/-- C9, amended: no runtime operation changes the path, name, size,
modification time, directory flag or encoded payload of a record (the map from
paths to records is an argument that no operation writes), and none changes the
slice header `data` of a record other than the one it accesses: `ReadBytes`,
`Open` and `MustReadBytes` may point that of the accessed record to a newly
allocated array, `Close` cuts it to length 0.  The bytes of the arrays that
exist change only through `Read(p)`, and there only inside the buffer `p`:
every array other than the one `p` points into is left as it is, and the array
of `p` keeps its length and its bytes outside `p`.  So the buffer of a record
that the call does not access keeps its contents unless it overlaps `p`, as it
does when `p` is a slice that `MustReadBytes` returned for that record. -/
theorem only_buffers_change (fs : Fs) (w : State) (op : Op) :
    (∀ q, sameRecord ((op.run fs w).files q) (w.files q)) ∧
    (∀ q, op.accessed fs ≠ some q → ((op.run fs w).files q).data = (w.files q).data) ∧
    (∀ a, a < w.next → (∀ b, op.buffer = some b → b.array ≠ a) →
      (op.run fs w).arrays a = w.arrays a) ∧
    (∀ b, op.buffer = some b →
      ((op.run fs w).arrays b.array).length = (w.arrays b.array).length ∧
      ∀ j, j < b.off ∨ b.off + b.len ≤ j →
        ((op.run fs w).arrays b.array)[j]? = (w.arrays b.array)[j]?) ∧
    (∀ q s, op.accessed fs ≠ some q → (w.files q).data = some s → s.array < w.next →
      (∀ b, op.buffer = some b → b.array = s.array →
        b.off + b.len ≤ s.off ∨ s.off + s.len ≤ b.off) →
      contents (op.run fs w).arrays ((op.run fs w).files q).data =
        contents w.arrays (w.files q).data) := by
  have hrefl : ∀ f : File, sameRecord f f := by intro f; simp [sameRecord]
  have key : (∀ q, sameRecord ((op.run fs w).files q) (w.files q)) ∧
      (∀ q, op.accessed fs ≠ some q → ((op.run fs w).files q).data = (w.files q).data) ∧
      (∀ a, a < w.next → (∀ b, op.buffer = some b → b.array ≠ a) →
        (op.run fs w).arrays a = w.arrays a) ∧
      (∀ b, op.buffer = some b →
        ((op.run fs w).arrays b.array).length = (w.arrays b.array).length ∧
        ∀ j, j < b.off ∨ b.off + b.len ≤ j →
          ((op.run fs w).arrays b.array)[j]? = (w.arrays b.array)[j]?) := by
    have hdecode : ∀ name, (∀ q, sameRecord ((Fs.ReadBytes fs w name).2.files q) (w.files q)) ∧
        (∀ q, Fs.index fs name ≠ some q →
          ((Fs.ReadBytes fs w name).2.files q).data = (w.files q).data) ∧
        (∀ a, a < w.next → (Fs.ReadBytes fs w name).2.arrays a = w.arrays a) := by
      intro name
      apply frame_of_assign
      rcases ReadBytes_state fs w name with h | ⟨stat, d, hfs, h⟩
      · exact Or.inl h
      · exact Or.inr ⟨stat, d, hfs, h⟩
    cases op with
    | Open name =>
      simp only [Op.run, Op.accessed, Op.buffer, Open_state]
      exact ⟨(hdecode name).1, (hdecode name).2.1, fun a ha _ => (hdecode name).2.2 a ha,
        fun b hb => by cases hb⟩
    | ReadBytes name =>
      simp only [Op.run, Op.accessed, Op.buffer]
      exact ⟨(hdecode name).1, (hdecode name).2.1, fun a ha _ => (hdecode name).2.2 a ha,
        fun b hb => by cases hb⟩
    | MustReadBytes name =>
      simp only [Op.run, Op.accessed, Op.buffer, MustReadBytes_state]
      exact ⟨(hdecode name).1, (hdecode name).2.1, fun a ha _ => (hdecode name).2.2 a ha,
        fun b hb => by cases hb⟩
    | Close hf =>
      simp only [Op.run, Op.accessed, Op.buffer, httpFile.Close]
      refine ⟨?_, ?_, fun _ _ _ => trivial, fun b hb => by cases hb⟩
      · intro q
        simp only [sameRecord]
        split
        · next hq => subst hq; simp
        · simp
      · intro q hq
        have : q ≠ hf.stat := fun hqs => hq (by rw [hqs])
        simp [this]
    | Seek hf o wh =>
      exact ⟨fun _ => hrefl _, fun _ _ => rfl, fun _ _ _ => rfl, fun b hb => by cases hb⟩
    | Stat hf =>
      exact ⟨fun _ => hrefl _, fun _ _ => rfl, fun _ _ _ => rfl, fun b hb => by cases hb⟩
    | Readdir hf n =>
      exact ⟨fun _ => hrefl _, fun _ _ => rfl, fun _ _ _ => rfl, fun b hb => by cases hb⟩
    | Read hf p =>
      simp only [Op.run, Op.accessed, Op.buffer, httpFile.Read]
      cases hr : hf.reader with
      | none =>
        exact ⟨fun _ => hrefl _, fun _ _ => rfl, fun _ _ _ => rfl, fun b _ => ⟨rfl, fun _ _ => rfl⟩⟩
      | some r =>
        simp only [bytesReader.Read]
        split
        · refine ⟨fun _ => hrefl _, fun _ _ => rfl, fun _ _ _ => rfl,
            fun b _ => ⟨rfl, fun _ _ => rfl⟩⟩
        · cases p with
          | none =>
            refine ⟨fun _ => hrefl _, fun _ _ => rfl, fun _ _ _ => rfl, fun b hb => by cases hb⟩
          | some b0 =>
            refine ⟨fun _ => hrefl _, fun _ _ => rfl, ?_, ?_⟩
            · intro a _ hne
              have : a ≠ b0.array := fun h => hne b0 rfl h.symm
              simp [this]
            · intro b hb
              cases hb
              simp only [if_true, writeAt_length, true_and]
              intro j hj
              apply writeAt_outside
              simp only [List.length_take, len]
              omega
  refine ⟨key.1, key.2.1, key.2.2.1, key.2.2.2, ?_⟩
  intro q s hq hs hlt hdis
  rw [key.2.1 q hq, hs]
  cases hb : op.buffer with
  | none =>
    have := key.2.2.1 s.array hlt (fun b hb2 => by rw [hb] at hb2; cases hb2)
    simp only [contents, this]
  | some b =>
    by_cases hba : b.array = s.array
    · have h4 := key.2.2.2 b hb
      rw [hba] at h4
      apply contents_congr
      intro j hj1 hj2
      apply h4.2
      have := hdis b hb hba
      omega
    · have := key.2.2.1 s.array hlt (fun b2 hb2 => by rw [hb] at hb2; cases hb2; exact hba)
      simp only [contents, this]

/-- C9 as stated fails.  At program start `p := fs.MustReadBytes("/a.txt")`
returns the buffer of the record of `/a.txt`, which shows `hello`;
`hb, _ := fs.Open("/b.txt")` returns a handle on the record of `/b.txt`, another
record; and `hb.Read(p)` returns 5 and leaves the buffer of the record of
`/a.txt` showing `world`. -/
theorem read_overwrites_other_buffer :
    twoFilesFs "/a.txt" = some (some 0) ∧ twoFilesFs "/b.txt" = some (some 1) ∧
      (Fs.MustReadBytes twoFilesFs (loadState twoFiles) "/a.txt").1 = some bufferOfA ∧
      (Fs.Open twoFilesFs stateAfterMustRead "/b.txt").1 = Except.ok handleOfB ∧
      (stateAfterOpen.files 0).data = some bufferOfA ∧
      contents stateAfterOpen.arrays (stateAfterOpen.files 0).data = ascii "hello" ∧
      Op.accessed twoFilesFs (Op.Read handleOfB (some bufferOfA)) = some 1 ∧
      (handleOfB.Read stateAfterOpen (some bufferOfA)).1.n = 5 ∧
      (stateAfterRead.files 0).data = some bufferOfA ∧
      contents stateAfterRead.arrays (stateAfterRead.files 0).data = ascii "world" := by
  decide

end Shared

end Embed
